import Mathlib

/-!
Verification of the `ofind` oscillator search program (src/ofind.c).

The C source is shallowly embedded: machine words (`Row` = uint32,
`State` = int32 offsets) become `Nat`/`Int` with explicit masking where
wraparound matters, global arrays become functions `Nat → Nat` threaded
through the definitions, and fallible paths (the `failure()` aborts)
become `Option`.
-/

set_option maxRecDepth 10000

namespace OFind

/-! ## makeDownShifts (src/ofind.c lines 220-232)

`downShifts` is a global `int [256]`, hence zero initialized; the loop
`for (x = 0; x < 0377; x++)` fills entries 0..254 only, so entry 255
keeps its initial value 0. -/

/-- The body of the `makeDownShifts` loop for one index `x`. -/
def downShiftsBody (x : Nat) : Nat :=
  (if x &&& 0o21 ≠ 0 then 0o3 else 0) |||
  (if x &&& 0o42 ≠ 0 then 0o14 else 0) |||
  (if x &&& 0o104 ≠ 0 then 0o60 else 0) |||
  (if x &&& 0o210 ≠ 0 then 0o300 else 0)

/-- Contents of the `downShifts` array after `makeDownShifts()` ran:
the loop bound is `x < 0377`, so index 255 stays 0. -/
def downShifts (x : Nat) : Nat :=
  if x < 0o377 then downShiftsBody x else 0

/-- Union of the two-cell projections of the three-cell states `s < n`
present in `x` (see `specDownShift`). -/
def specDownShiftAux (x : Nat) : Nat → Nat
  | 0 => 0
  | s + 1 => specDownShiftAux x s ||| (if x.testBit s then 3 <<< (2 * (s % 4)) else 0)

/-- Modelled from the claim's words: the union, over the three-cell states
`s = a + 2b + 4c` present in `x`, of the two-cell projection obtained by
discarding the consumed cell `c`; the pair `(a,b)` is kept and re-encoded
as the two states extending it, i.e. bits `2a+4b` and `2a+4b+1`. -/
def specDownShift (x : Nat) : Nat := specDownShiftAux x 8

theorem testBit_three_shift (k t : Nat) :
    (3 <<< k).testBit t = true ↔ t = k ∨ t = k + 1 := by
  rw [Nat.shiftLeft_eq, Nat.mul_comm, Nat.testBit_mul_pow_two]
  have h3 : (3 : Nat) = 2 ^ 2 - 1 := rfl
  rw [h3, Nat.testBit_two_pow_sub_one]
  simp only [Bool.and_eq_true, decide_eq_true_eq]
  omega

theorem specDownShiftAux_testBit (x n t : Nat) :
    (OFind.specDownShiftAux x n).testBit t = true ↔
      ∃ s, s < n ∧ x.testBit s = true ∧ (t = 2 * (s % 4) ∨ t = 2 * (s % 4) + 1) := by
  induction n with
  | zero =>
    simp only [specDownShiftAux, Nat.zero_testBit]
    constructor
    · intro h
      exact absurd h (by decide)
    · rintro ⟨s, hs, _⟩
      exact absurd hs (Nat.not_lt_zero s)
  | succ n ih =>
    simp only [specDownShiftAux, Nat.testBit_or, Bool.or_eq_true, ih]
    constructor
    · rintro (⟨s, hs, hxs, hts⟩ | hnew)
      · exact ⟨s, Nat.lt_succ_of_lt hs, hxs, hts⟩
      · by_cases hx : x.testBit n = true
        · rw [if_pos hx, testBit_three_shift] at hnew
          exact ⟨n, Nat.lt_succ_self n, hx, hnew⟩
        · rw [if_neg hx] at hnew
          simp [Nat.zero_testBit] at hnew
    · rintro ⟨s, hs, hxs, hts⟩
      rcases Nat.lt_succ_iff_lt_or_eq.mp hs with h' | h'
      · exact Or.inl ⟨s, h', hxs, hts⟩
      · subst h'
        rw [if_pos hxs, testBit_three_shift]
        exact Or.inr hts

theorem and_subset_testBit {x y : Nat} (h : x &&& y = x) {i : Nat}
    (hx : x.testBit i = true) : y.testBit i = true := by
  have h2 := congrArg (fun n => Nat.testBit n i) h
  simp only [Nat.testBit_and, hx, Bool.true_and] at h2
  exact h2

theorem specDownShift_mono {x y : Nat} (h : x &&& y = x) :
    OFind.specDownShift x &&& OFind.specDownShift y = OFind.specDownShift x := by
  apply Nat.eq_of_testBit_eq
  intro i
  rw [Nat.testBit_and]
  by_cases hx : (OFind.specDownShift x).testBit i = true
  · rw [hx, Bool.true_and]
    rw [specDownShift, specDownShiftAux_testBit] at hx
    obtain ⟨s, hs, hxs, hts⟩ := hx
    rw [specDownShift, specDownShiftAux_testBit]
    exact ⟨s, hs, and_subset_testBit h hxs, hts⟩
  · rw [Bool.not_eq_true] at hx
    rw [hx, Bool.false_and]

end OFind

/-- C8 counterexample: the claim asserts `downShifts` agrees with the
two-cell-projection union on all of `0..255` and in particular maps the
full bitmap 255 to the full result; but the `makeDownShifts` loop bound
`x < 0377` leaves `downShifts[255]` at its zero initialization. -/
theorem c8_downShifts_full_bitmap_counterexample :
    OFind.downShifts 0o377 = 0 ∧ OFind.specDownShift 0o377 = 0o377 := by
  constructor <;> decide

/-- C8 (amended): for every 8-bit bitmap `x` with `0 ≤ x ≤ 254`,
`downShifts[x]` is the union over the set bits of `x` of that state's
two-cell projection, and on that range the table is monotone with respect
to bitmap inclusion; `downShifts[255]` remains 0 because the
initialization loop stops at `x < 0377`. -/
theorem c8_downShifts_projection :
    (∀ x < 255, OFind.downShifts x = OFind.specDownShift x) ∧
    (∀ x < 255, ∀ y < 255, x &&& y = x →
      OFind.downShifts x &&& OFind.downShifts y = OFind.downShifts x) ∧
    OFind.downShifts 255 = 0 := by
  have h1 : ∀ x < 255, OFind.downShifts x = OFind.specDownShift x := by decide
  refine ⟨h1, fun x hx y hy hxy => ?_, by decide⟩
  rw [h1 x hx, h1 y hy]
  exact OFind.specDownShift_mono hxy

/-- C8 witness: the amended theorem applied at the concrete bitmaps 5 and 7. -/
theorem c8_downShifts_projection_witness :
    OFind.downShifts 5 = OFind.specDownShift 5 ∧
    OFind.downShifts 5 &&& OFind.downShifts 7 = OFind.downShifts 5 := by
  exact ⟨c8_downShifts_projection.1 5 (by decide),
    c8_downShifts_projection.2.1 5 (by decide) 7 (by decide) (by decide)⟩

namespace OFind

/-! ## statorCompare (src/ofind.c lines 1002-1009) -/

/-- Reinterpret the low 32 bits of `n` as a two's-complement `int`, as the
C cast `(int)` does on the `Row` (uint32) subtraction results. -/
def toInt32 (n : Nat) : Int :=
  if n % 2 ^ 32 < 2 ^ 31 then ((n % 2 ^ 32 : Nat) : Int)
  else ((n % 2 ^ 32 : Nat) : Int) - 2 ^ 32

/-- `STATMASK` (src/ofind.c line 322), as a function of the width globals. -/
def STATMASK (rotorWidth leftStatorWidth rightStatorWidth : Nat) : Nat :=
  (((1 <<< rightStatorWidth) - 1) <<< (rotorWidth + leftStatorWidth)) |||
    ((1 <<< leftStatorWidth) - 1)

/-- `statorCompare` from src/ofind.c; the subtractions are performed on
uint32 values, wrapping modulo `2^32`, and then cast to `int`. -/
def statorCompare (m p q : Nat) : Int :=
  if p &&& m ≠ q &&& m then toInt32 ((p &&& m) + 2 ^ 32 - (q &&& m))
  else toInt32 (p + 2 ^ 32 - q)

/-- The sort order claimed by the spec: stator bits ascending, ties broken
by full row value ascending. -/
def statorLexLt (m p q : Nat) : Prop :=
  p &&& m < q &&& m ∨ (p &&& m = q &&& m ∧ p < q)

instance (m p q : Nat) : Decidable (statorLexLt m p q) := by
  unfold statorLexLt; infer_instance

theorem toInt32_sub_eq {a b : Nat} (ha : a < 2 ^ 31) (hb : b < 2 ^ 31) :
    toInt32 (a + 2 ^ 32 - b) = (a : Int) - b := by
  unfold toInt32
  split <;> omega

end OFind

/-- C9 counterexample: with `STATMASK = 1 << 31` (rotor 31, right stator 1)
and rows `p = 2^31`, `q = 0`, the pair `(q's stator, q)` is lexicographically
smaller, so the claim requires `statorCompare(&p,&q)` to be positive, but the
wrapped uint32 subtraction casts to a negative `int`. -/
theorem c9_statorCompare_counterexample :
    OFind.statorLexLt (OFind.STATMASK 31 0 1) 0 (2 ^ 31) ∧
    OFind.statorCompare (OFind.STATMASK 31 0 1) (2 ^ 31) 0 < 0 := by
  constructor <;> decide

/-- C9 (amended): for rows `p, q < 2^31` (total width at most 31) and any
mask, `statorCompare` is consistent with the spec's sort order: negative iff
`(p & STATMASK, p)` is lexicographically smaller than `(q & STATMASK, q)`,
zero iff `p = q`, positive iff greater; for rows using bit 31 the uint32
subtraction can wrap and the comparator misorders. -/
theorem c9_statorCompare_trichotomy (m p q : Nat)
    (hp : p < 2 ^ 31) (hq : q < 2 ^ 31) :
    (OFind.statorCompare m p q < 0 ↔ OFind.statorLexLt m p q) ∧
    (OFind.statorCompare m p q = 0 ↔ p = q) ∧
    (0 < OFind.statorCompare m p q ↔ OFind.statorLexLt m q p) := by
  have ha : p &&& m < 2 ^ 31 := lt_of_le_of_lt Nat.and_le_left hp
  have hb : q &&& m < 2 ^ 31 := lt_of_le_of_lt Nat.and_le_left hq
  unfold OFind.statorCompare
  by_cases h : p &&& m = q &&& m
  · rw [if_neg (by simp [h])]
    rw [OFind.toInt32_sub_eq hp hq]
    simp only [OFind.statorLexLt]
    omega
  · rw [if_pos h]
    rw [OFind.toInt32_sub_eq ha hb]
    simp only [OFind.statorLexLt]
    refine ⟨by omega, ?_, by omega⟩
    constructor
    · intro h0
      exfalso
      omega
    · intro hpq
      subst hpq
      exact absurd rfl h

/-- C9 witness: the amended trichotomy applied at the concrete mask
`STATMASK 4 0 1 = 0x10` and rows 3 and 19. -/
theorem c9_statorCompare_trichotomy_witness :
    OFind.statorCompare (OFind.STATMASK 4 0 1) 3 19 < 0 ↔
      OFind.statorLexLt (OFind.STATMASK 4 0 1) 3 19 :=
  (c9_statorCompare_trichotomy (OFind.STATMASK 4 0 1) 3 19
    (by decide) (by decide)).1

namespace OFind

/-! ## depthFirst (src/ofind.c lines 1124-1139)

`depthFirst` reads and writes only `firstFreeState` directly; everything
`process` touches is opaque to it.  The state is therefore split into the
`firstFreeState` cursor and an abstract remainder, and `process` is a
parameter acting on the whole state; the frame theorem below holds for
every such `process`, in particular for the real one. -/

/-- The mutable program state as seen by `depthFirst`: the
`firstFreeState` cursor plus the rest of the globals. -/
structure DFState (M : Type) where
  firstFree : Int
  mem : M

mutual

/-- `depthFirst(s, numLevels)` from src/ofind.c, with explicit fuel for
the recursion (`none` = fuel exhausted; the C recursion's termination is
not needed for the frame claim).  `proc` stands for `process`. -/
def depthFirst {M : Type} (period : Int) (proc : Int → DFState M → DFState M) :
    Nat → Nat → Int → DFState M → Option (Bool × DFState M)
  | 0, _, _, _ => none
  | fuel + 1, numLevels, s, st =>
    if numLevels = 0 then some (true, st)
    else depthFirstLoop period proc fuel numLevels st.firstFree (proc s st)

/-- The `while (f < firstFreeState)` loop of `depthFirst`: `child` is
`previousState(firstFreeState)`; a successful recursive probe restores
`firstFreeState = f` and returns 1, a failed one moves the cursor down to
`child`; on loop exit `firstFreeState = f` and 0 is returned. -/
def depthFirstLoop {M : Type} (period : Int) (proc : Int → DFState M → DFState M) :
    Nat → Nat → Int → DFState M → Option (Bool × DFState M)
  | 0, _, _, _ => none
  | fuel + 1, numLevels, f, st =>
    if f < st.firstFree then
      match depthFirst period proc fuel (numLevels - 1) (st.firstFree - (period + 1)) st with
      | none => none
      | some (true, st2) => some (true, { st2 with firstFree := f })
      | some (false, st2) =>
        depthFirstLoop period proc fuel numLevels f
          { st2 with firstFree := st.firstFree - (period + 1) }
    else some (false, { st with firstFree := f })

end

theorem depthFirstLoop_frame {M : Type} (period : Int)
    (proc : Int → DFState M → DFState M) :
    ∀ (fuel numLevels : Nat) (f : Int) (st : DFState M) (b : Bool) (st' : DFState M),
      depthFirstLoop period proc fuel numLevels f st = some (b, st') →
      st'.firstFree = f := by
  intro fuel
  induction fuel with
  | zero =>
    intro numLevels f st b st' h
    exact absurd h (by simp [depthFirstLoop])
  | succ fuel ih =>
    intro numLevels f st b st' h
    rw [depthFirstLoop] at h
    split at h
    · rcases hd : depthFirst period proc fuel (numLevels - 1)
          (st.firstFree - (period + 1)) st with _ | ⟨b2, st2⟩
      · rw [hd] at h
        exact absurd h (by simp)
      · rw [hd] at h
        cases b2
        · exact ih numLevels f _ b st' h
        · simp only [Option.some.injEq, Prod.mk.injEq] at h
          rw [← h.2]
    · simp only [Option.some.injEq, Prod.mk.injEq] at h
      rw [← h.2]

end OFind

/-- C10: whenever `depthFirst(s, numLevels)` returns (with either truth
value), `firstFreeState` equals its value at entry — the iterative
deepening probe retracts every state it allocated — for an arbitrary
behaviour of `process`. -/
theorem c10_depthFirst_frame {M : Type} (period : Int)
    (proc : Int → OFind.DFState M → OFind.DFState M)
    (fuel numLevels : Nat) (s : Int) (st : OFind.DFState M)
    (b : Bool) (st' : OFind.DFState M)
    (h : OFind.depthFirst period proc fuel numLevels s st = some (b, st')) :
    st'.firstFree = st.firstFree := by
  cases fuel with
  | zero => exact absurd h (by simp [OFind.depthFirst])
  | succ fuel =>
    rw [OFind.depthFirst] at h
    split at h
    · simp only [Option.some.injEq, Prod.mk.injEq] at h
      rw [← h.2]
    · exact OFind.depthFirstLoop_frame period proc fuel numLevels st.firstFree _ b st' h

/-- C10 witness: a concrete two-level run (period 5, `process` appending
one state) returns truth value true with `firstFreeState` restored to 6. -/
theorem c10_depthFirst_frame_witness :
    ((true, (⟨6, ()⟩ : OFind.DFState Unit)) : Bool × OFind.DFState Unit).2.firstFree =
      (⟨6, ()⟩ : OFind.DFState Unit).firstFree :=
  c10_depthFirst_frame 5 (fun _ st => ⟨st.firstFree + 6, st.mem⟩) 4 1 0
    ⟨6, ()⟩ true ⟨6, ()⟩
    (by simp [OFind.depthFirst, OFind.depthFirstLoop])

namespace OFind

/-! ## aperiodic (src/ofind.c lines 478-497)

The KMP-style subperiod test on the row sequence `rows[0..P)` of a state.
The state's rows enter only through `rowOfState(s, ·)`, modelled as a
function `row : Nat → Nat`. -/

/-- The inner `while` loop of `aperiodic`: from candidate `c = p[i]`,
step `p[i] = p[p[i]-1]+1` until `rows[p[i]] = rows[i]` (return the
candidate) or `p[i] = 0` on a mismatch (return `-1`).  `pl` holds the
already-computed `p[0..i)` values.  The C loop terminates because the
candidates strictly decrease; the fuel argument makes that explicit and
`kmpLoop_eq` below shows `c + 1` fuel is never exhausted. -/
def kmpLoop (row : Nat → Nat) (pl : List Int) (i : Nat) : Int → Nat → Int
  | _, 0 => -2
  | c, fuel + 1 =>
    if row c.toNat = row i then c
    else if c = 0 then -1
    else kmpLoop row pl i (pl.getD (c - 1).toNat 0 + 1) fuel

/-- The values `p[0..i]` computed by the `for` loop of `aperiodic`:
`p[0] = -1` and `p[i]` results from `kmpLoop` seeded with `p[i-1]+1`. -/
def kmpP (row : Nat → Nat) : Nat → List Int
  | 0 => [-1]
  | i + 1 =>
    let pl := kmpP row i
    pl ++ [kmpLoop row pl (i + 1) (pl.getD i 0 + 1) (i + 2)]

/-- `aperiodic` from src/ofind.c: `i = period - (p[period-1]+1)` is the
candidate minimal period; the state is aperiodic when `i == period` or
`i` does not divide `period`.  For `period = 1` the test degenerates to
the single row being nonzero. -/
def aperiodic (period : Nat) (row : Nat → Nat) : Bool :=
  if period = 1 then row 0 != 0
  else
    let pl := kmpP row (period - 1)
    let i : Int := (period : Int) - (pl.getD (period - 1) 0 + 1)
    decide (i = (period : Int)) || decide ((period : Int) % i ≠ 0)

/-- `rows[0..P)` repeats with shift `q` inside the window. -/
def rowsPeriodic (row : Nat → Nat) (P q : Nat) : Prop :=
  ∀ i < P - q, row i = row (i + q)

instance (row : Nat → Nat) (P q : Nat) : Decidable (rowsPeriodic row P q) := by
  unfold rowsPeriodic; infer_instance

theorem fundPeriod_exists (row : Nat → Nat) (P : Nat) :
    ∃ q, 0 < q ∧ rowsPeriodic row P q :=
  ⟨P + 1, Nat.succ_pos P, fun i hi => absurd hi (by omega)⟩

/-- Modelled from the claim's words: the fundamental period of the row
sequence `rows[0..P)` is the least `q ≥ 1` such that
`rows[i] = rows[i+q]` for all `0 ≤ i < P - q` (`q = P` always qualifies
vacuously, so the least exists). -/
def fundPeriod (row : Nat → Nat) (P : Nat) : Nat :=
  Nat.find (fundPeriod_exists row P)

/-- `b` is a (possibly empty) proper border of the prefix `rows[0..n)`:
its length-`b` prefix and suffix agree. -/
def IsBorder (row : Nat → Nat) (n b : Nat) : Prop :=
  b < n ∧ ∀ t < b, row t = row (t + (n - b))

instance (row : Nat → Nat) (n b : Nat) : Decidable (IsBorder row n b) := by
  unfold IsBorder; infer_instance

/-- Length of the longest proper border of `rows[0..n)`. -/
def maxBorder (row : Nat → Nat) (n : Nat) : Nat :=
  Nat.findGreatest (IsBorder row n) (n - 1)

theorem isBorder_zero (row : Nat → Nat) {n : Nat} (hn : 0 < n) :
    IsBorder row n 0 :=
  ⟨hn, fun t ht => absurd ht (Nat.not_lt_zero t)⟩

theorem maxBorder_isBorder (row : Nat → Nat) {n : Nat} (hn : 0 < n) :
    IsBorder row n (maxBorder row n) :=
  Nat.findGreatest_spec (Nat.zero_le _) (isBorder_zero row hn)

theorem maxBorder_le (row : Nat → Nat) (n : Nat) : maxBorder row n ≤ n - 1 :=
  Nat.findGreatest_le _

theorem le_maxBorder {row : Nat → Nat} {n b : Nat} (hb : IsBorder row n b) :
    b ≤ maxBorder row n :=
  Nat.le_findGreatest (by have := hb.1; omega) hb

/-- Extending a border by one matching character. -/
theorem isBorder_succ_iff (row : Nat → Nat) (n c : Nat) :
    IsBorder row (n + 1) (c + 1) ↔ IsBorder row n c ∧ row c = row n := by
  unfold IsBorder
  constructor
  · rintro ⟨hlt, h⟩
    have hcn : c < n := by omega
    have hsub : n + 1 - (c + 1) = n - c := by omega
    refine ⟨⟨hcn, fun t ht => ?_⟩, ?_⟩
    · have := h t (by omega)
      rwa [hsub] at this
    · have := h c (by omega)
      rw [hsub] at this
      rwa [Nat.add_sub_cancel' (Nat.le_of_lt hcn)] at this
  · rintro ⟨⟨hcn, h⟩, hc⟩
    have hsub : n + 1 - (c + 1) = n - c := by omega
    refine ⟨by omega, fun t ht => ?_⟩
    rw [hsub]
    rcases Nat.lt_succ_iff_lt_or_eq.mp ht with ht' | ht'
    · exact h t ht'
    · subst ht'
      rwa [Nat.add_sub_cancel' (Nat.le_of_lt hcn)]

/-- A border of a border is a border. -/
theorem isBorder_trans {row : Nat → Nat} {n b b' : Nat}
    (h1 : IsBorder row b' b) (h2 : IsBorder row n b') : IsBorder row n b := by
  obtain ⟨hb, h1'⟩ := h1
  obtain ⟨hb', h2'⟩ := h2
  refine ⟨by omega, fun t ht => ?_⟩
  have e1 : row t = row (t + (b' - b)) := h1' t ht
  have e2 : row (t + (b' - b)) = row (t + (b' - b) + (n - b')) := h2' _ (by omega)
  have e3 : t + (b' - b) + (n - b') = t + (n - b) := by omega
  rw [e1, e2, e3]

/-- Two nested borders of the same prefix: the shorter is a border of the
longer (viewed as a prefix). -/
theorem isBorder_nest {row : Nat → Nat} {n b b' : Nat}
    (h1 : IsBorder row n b) (h2 : IsBorder row n b') (hlt : b < b') :
    IsBorder row b' b := by
  obtain ⟨hb, h1'⟩ := h1
  obtain ⟨hb', h2'⟩ := h2
  refine ⟨hlt, fun t ht => ?_⟩
  have e1 : row t = row (t + (n - b)) := h1' t ht
  have e2 : row (t + (b' - b)) = row (t + (b' - b) + (n - b')) := h2' _ (by omega)
  have e3 : t + (b' - b) + (n - b') = t + (n - b) := by omega
  rw [e3] at e2
  rw [e1, ← e2]

end OFind

namespace OFind

/-- Correctness of the failure-chain loop: seeded with a border candidate
`cn` of the prefix `rows[0..m)` that dominates every border extendable by
`rows[m]`, the loop returns `maxBorder (m+1) - 1`.  Fuel `cn + 1` is
enough because the candidates strictly decrease. -/
theorem kmpLoop_eq (row : Nat → Nat) (pl : List Int) (m : Nat)
    (hpl : ∀ k < m, pl.getD k 0 = (maxBorder row (k + 1) : Int) - 1) :
    ∀ (fuel cn : Nat), cn < fuel →
      IsBorder row m cn →
      (∀ d, IsBorder row m d → cn < d → row d ≠ row m) →
      kmpLoop row pl m (cn : Int) fuel = (maxBorder row (m + 1) : Int) - 1 := by
  intro fuel
  induction fuel with
  | zero =>
    intro cn hcn _ _
    exact absurd hcn (Nat.not_lt_zero cn)
  | succ fuel ih =>
    intro cn hcn hcb hmax
    rw [kmpLoop]
    rw [Int.toNat_natCast]
    by_cases hrow : row cn = row m
    · rw [if_pos hrow]
      have hb1 : IsBorder row (m + 1) (cn + 1) :=
        (isBorder_succ_iff row m cn).mpr ⟨hcb, hrow⟩
      have hle : cn + 1 ≤ maxBorder row (m + 1) := le_maxBorder hb1
      have hge : maxBorder row (m + 1) ≤ cn + 1 := by
        by_contra hgt
        push_neg at hgt
        have hmb : IsBorder row (m + 1) (maxBorder row (m + 1)) :=
          maxBorder_isBorder row (Nat.succ_pos m)
        obtain ⟨d, hd⟩ : ∃ d, maxBorder row (m + 1) = d + 1 :=
          ⟨maxBorder row (m + 1) - 1, by omega⟩
        rw [hd] at hmb
        obtain ⟨hdb, hdrow⟩ := (isBorder_succ_iff row m d).mp hmb
        exact hmax d hdb (by omega) hdrow
      have heq : maxBorder row (m + 1) = cn + 1 := le_antisymm hge hle
      rw [heq]
      push_cast
      ring
    · rw [if_neg hrow]
      by_cases hc0 : cn = 0
      · subst hc0
        rw [Nat.cast_zero, if_pos rfl]
        have hmb0 : maxBorder row (m + 1) = 0 := by
          by_contra h0
          have hmb : IsBorder row (m + 1) (maxBorder row (m + 1)) :=
            maxBorder_isBorder row (Nat.succ_pos m)
          obtain ⟨d, hd⟩ : ∃ d, maxBorder row (m + 1) = d + 1 :=
            ⟨maxBorder row (m + 1) - 1, by omega⟩
          rw [hd] at hmb
          obtain ⟨hdb, hdrow⟩ := (isBorder_succ_iff row m d).mp hmb
          rcases Nat.eq_zero_or_pos d with hdz | hdpos
          · subst hdz
            exact hrow hdrow
          · exact hmax d hdb hdpos hdrow
        rw [hmb0]
        norm_num
      · rw [if_neg (by exact_mod_cast hc0)]
        have hcn_pos : 0 < cn := Nat.pos_of_ne_zero hc0
        have hcm : cn < m := hcb.1
        have htn : ((cn : Int) - 1).toNat = cn - 1 := by omega
        rw [htn]
        have hget : pl.getD (cn - 1) 0 = (maxBorder row cn : Int) - 1 := by
          have h := hpl (cn - 1) (by omega)
          have : cn - 1 + 1 = cn := by omega
          rwa [this] at h
        rw [hget]
        have hc' : (maxBorder row cn : Int) - 1 + 1 = ((maxBorder row cn : Nat) : Int) := by
          ring
        rw [hc']
        have hmb_cn : IsBorder row cn (maxBorder row cn) :=
          maxBorder_isBorder row hcn_pos
        have hlt : maxBorder row cn < cn := by
          have := maxBorder_le row cn
          omega
        apply ih
        · omega
        · exact isBorder_trans hmb_cn hcb
        · intro d hd hgt
          rcases Nat.lt_trichotomy d cn with hdc | hdc | hdc
          · intro hdrow
            have : IsBorder row cn d := isBorder_nest hd hcb hdc
            have := le_maxBorder this
            omega
          · subst hdc
            exact hrow
          · exact hmax d hd hdc

theorem kmpP_length (row : Nat → Nat) : ∀ n, (kmpP row n).length = n + 1 := by
  intro n
  induction n with
  | zero => rfl
  | succ n ih => simp [kmpP, ih]

/-- The `p[]` array computed by `aperiodic`'s main loop holds
`maxBorder(prefix of length k+1) - 1` at index `k`. -/
theorem kmpP_getD (row : Nat → Nat) :
    ∀ n, ∀ k ≤ n, (kmpP row n).getD k 0 = (maxBorder row (k + 1) : Int) - 1 := by
  intro n
  induction n with
  | zero =>
    intro k hk
    have hk0 : k = 0 := Nat.le_zero.mp hk
    subst hk0
    have h1 : maxBorder row 1 = 0 := rfl
    simp [kmpP, h1]
  | succ n ih =>
    intro k hk
    show (kmpP row n ++ [kmpLoop row (kmpP row n) (n + 1)
      ((kmpP row n).getD n 0 + 1) (n + 2)]).getD k 0 = _
    by_cases hkn : k ≤ n
    · rw [List.getD_append _ _ _ _ (by rw [kmpP_length]; omega)]
      exact ih k hkn
    · have hk1 : k = n + 1 := by omega
      subst hk1
      rw [List.getD_append_right _ _ _ _ (by rw [kmpP_length]),
        kmpP_length]
      simp only [Nat.sub_self, List.getD_cons_zero]
      have hseed : (kmpP row n).getD n 0 + 1 = ((maxBorder row (n + 1) : Nat) : Int) := by
        rw [ih n le_rfl]
        ring
      rw [hseed]
      apply kmpLoop_eq row (kmpP row n) (n + 1) (fun k hk => ih k (by omega)) (n + 2)
      · have := maxBorder_le row (n + 1)
        omega
      · exact maxBorder_isBorder row (Nat.succ_pos n)
      · intro d hd hgt
        exact absurd (le_maxBorder hd) (by omega)

end OFind

namespace OFind

/-- The least shift under which the row window repeats is the window
length minus its longest border. -/
theorem fundPeriod_eq_sub (row : Nat → Nat) {P : Nat} (hP : 0 < P) :
    fundPeriod row P = P - maxBorder row P := by
  have hble : maxBorder row P ≤ P - 1 := maxBorder_le row P
  have hbO : IsBorder row P (maxBorder row P) := maxBorder_isBorder row hP
  rw [fundPeriod, Nat.find_eq_iff]
  refine ⟨⟨by omega, fun i hi => ?_⟩, ?_⟩
  · exact hbO.2 i (by omega)
  · intro q hq
    rintro ⟨hq0, hqp⟩
    have hb' : IsBorder row P (P - q) := by
      refine ⟨by omega, fun t ht => ?_⟩
      have h2 : P - (P - q) = q := by omega
      rw [h2]
      exact hqp t (by omega)
    have := le_maxBorder hb'
    omega

/-- What `aperiodic` computes, for `period ≥ 2`: true iff the fundamental
period is `P` itself or fails to divide `P`. -/
theorem aperiodic_iff (row : Nat → Nat) {P : Nat} (hP : 2 ≤ P) :
    aperiodic P row = true ↔
      (fundPeriod row P = P ∨ P % fundPeriod row P ≠ 0) := by
  have hP1 : P ≠ 1 := by omega
  have hP0 : 0 < P := by omega
  rw [aperiodic, if_neg hP1]
  have hpl : (kmpP row (P - 1)).getD (P - 1) 0 = (maxBorder row P : Int) - 1 := by
    have h := kmpP_getD row (P - 1) (P - 1) le_rfl
    have h2 : P - 1 + 1 = P := by omega
    rwa [h2] at h
  have hq : fundPeriod row P = P - maxBorder row P := fundPeriod_eq_sub row hP0
  have hble : maxBorder row P ≤ P - 1 := maxBorder_le row P
  rw [Bool.or_eq_true, decide_eq_true_eq, decide_eq_true_eq, hpl]
  have hcast : (P : Int) - ((maxBorder row P : Int) - 1 + 1) =
      ((fundPeriod row P : Nat) : Int) := by
    rw [hq]
    omega
  rw [hcast]
  constructor
  · rintro (h | h)
    · exact Or.inl (by exact_mod_cast h)
    · refine Or.inr fun hz => h ?_
      rw [← Int.natCast_mod, hz]
      rfl
  · rintro (h | h)
    · exact Or.inl (by exact_mod_cast h)
    · refine Or.inr fun hz => h ?_
      rw [← Int.natCast_mod] at hz
      exact_mod_cast hz

/-- What `aperiodic` computes for `period = 1`: the single row is nonzero. -/
theorem aperiodic_one_iff (row : Nat → Nat) :
    aperiodic 1 row = true ↔ row 0 ≠ 0 := by
  rw [aperiodic, if_pos rfl]
  simp [bne_iff_ne]

end OFind

/-- C2 counterexample: for `P = 3` and rows `1, 0, 1`, the fundamental
period (least `q ≥ 1` with `rows[i] = rows[i+q]` for `i < P - q`) is 2,
not 3, yet `aperiodic` returns true because 2 does not divide 3 — the
code also accepts non-dividing subperiods, refuting the claimed "iff the
fundamental period equals P". -/
theorem c2_aperiodic_counterexample :
    OFind.aperiodic 3 (fun i => if i = 1 then 0 else 1) = true ∧
    OFind.fundPeriod (fun i => if i = 1 then 0 else 1) 3 = 2 := by
  constructor
  · decide
  · rw [OFind.fundPeriod, Nat.find_eq_iff]
    refine ⟨⟨by decide, by decide⟩, ?_⟩
    decide

/-- C2 (amended): for `2 ≤ P ≤ 19`, `aperiodic(s)` returns true iff the
fundamental period `q` of `rows[0..P)` equals `P` **or does not divide
`P`** (`minPeriod == period || period % minPeriod != 0` in the code); for
`P = 1` it returns true iff `rows[0]` is nonzero. -/
theorem c2_aperiodic_fundamental_period :
    (∀ (row : Nat → Nat) (P : Nat), 2 ≤ P → P ≤ 19 →
      (OFind.aperiodic P row = true ↔
        (OFind.fundPeriod row P = P ∨ P % OFind.fundPeriod row P ≠ 0))) ∧
    (∀ row : Nat → Nat, OFind.aperiodic 1 row = true ↔ row 0 ≠ 0) :=
  ⟨fun row _P h2 _ => OFind.aperiodic_iff row h2,
   fun row => OFind.aperiodic_one_iff row⟩

/-- C2 witness: the amended equivalence at `P = 4` with the concrete
2-periodic row sequence `7,9,7,9` (aperiodic is false there since the
fundamental period 2 divides 4), and at `P = 1` with row 3. -/
theorem c2_aperiodic_fundamental_period_witness :
    (OFind.aperiodic 4 (fun i => if i % 2 = 0 then 7 else 9) = true ↔
      (OFind.fundPeriod (fun i => if i % 2 = 0 then 7 else 9) 4 = 4 ∨
        4 % OFind.fundPeriod (fun i => if i % 2 = 0 then 7 else 9) 4 ≠ 0)) ∧
    (OFind.aperiodic 1 (fun _ => 3) = true ↔ (fun _ => 3) 0 ≠ 0) :=
  ⟨c2_aperiodic_fundamental_period.1 (fun i => if i % 2 = 0 then 7 else 9) 4
      (by decide) (by decide),
   c2_aperiodic_fundamental_period.2 (fun _ => 3)⟩

namespace OFind

/-! ## State arena and hash table (src/ofind.c lines 77-199)

`statespace` is a flat word array: slot `s` holds the parent offset at
index `s` and `rows[phase]` at `s + 1 + phase`.  The array becomes a
function `Nat → Nat`; `upd` is a single store. -/

/-- Pointwise store into a function-modelled array. -/
def upd (f : Nat → Nat) (i v : Nat) : Nat → Nat :=
  fun j => if j = i then v else f j

theorem upd_same (f : Nat → Nat) (i v : Nat) : upd f i v i = v := by
  simp [upd]

theorem upd_other (f : Nat → Nat) {i j : Nat} (v : Nat) (h : j ≠ i) :
    upd f i v j = f j := by
  simp [upd, h]

/-- `parentState` (src/ofind.c line 94). -/
def parentState (space : Nat → Nat) (s : Nat) : Nat := space s

/-- `rowOfState` (src/ofind.c line 104). -/
def rowOfState (space : Nat → Nat) (s phase : Nat) : Nat := space (s + 1 + phase)

/-- `lastState = STATE_SPACE_SIZE = INT32_MAX` (src/ofind.c lines 86-91). -/
def lastState : Nat := 2 ^ 31 - 1

def HASHSIZE : Nat := 1 <<< 21

def HASHMASK : Nat := HASHSIZE - 1

/-- `HASHIDX` (src/ofind.c line 151). -/
def HASHIDX (space : Nat → Nat) (p b s : Nat) : Nat :=
  (p <<< 10) + (b <<< 8) + ((rowOfState space s p >>> (b * 8)) &&& 0xff)

/-- `HASHBYTE` (src/ofind.c line 152): `tab`/`ptab` are the random salt
arrays `hashValTab`/`hashValPTab` (nonnegative `rand()` values). -/
def HASHBYTE (tab ptab space : Nat → Nat) (phase b s : Nat) : Nat :=
  tab (HASHIDX space phase b s) + ptab (HASHIDX space phase b (parentState space s))

/-- The hash key accumulation loop of `hash` (src/ofind.c lines 186-188). -/
def hashKey (tab ptab space : Nat → Nat) (period s : Nat) : Nat :=
  (List.range period).foldl
    (fun acc phase =>
      acc + (HASHBYTE tab ptab space phase 0 s + HASHBYTE tab ptab space phase 1 s +
        HASHBYTE tab ptab space phase 2 s + HASHBYTE tab ptab space phase 3 s)) 0

/-- `isDuplicate` (src/ofind.c lines 168-176). -/
def isDuplicate (space : Nat → Nat) (period s t : Nat) : Bool :=
  (List.range period).all fun phase =>
    rowOfState space s phase == rowOfState space t phase &&
    rowOfState space (parentState space s) phase ==
      rowOfState space (parentState space t) phase

/-- The probe loop of `hash` (src/ofind.c lines 191-197): `nTries`
down-counts from 3; an empty slot stores `s`, a matching occupant reports
a duplicate, and exhausted tries keep the state without hashing it. -/
def hashProbe (space : Nat → Nat) (period s : Nat) :
    Nat → Nat → (Nat → Nat) → Bool × (Nat → Nat)
  | _, 0, table => (false, table)
  | key, nTries + 1, table =>
    if table (key &&& HASHMASK) = 0 then (false, upd table (key &&& HASHMASK) s)
    else if isDuplicate space period s (table (key &&& HASHMASK)) then (true, table)
    else hashProbe space period s (key + (key >>> 16)) nTries table

/-- `hash` (src/ofind.c lines 179-199): true means "duplicate exists, not
hashed"; the updated table is returned alongside. -/
def hash (tab ptab space : Nat → Nat) (period s : Nat) (table : Nat → Nat) :
    Bool × (Nat → Nat) :=
  hashProbe space period s (hashKey tab ptab space period s) 3 table

/-- The probe-key sequence: `key`, then `key += key >> 16` per retry. -/
def probeKeys (key : Nat) : Nat → Nat
  | 0 => key
  | j + 1 => probeKeys key j + (probeKeys key j >>> 16)

/-- Writes `rows[phase] = vals phase` for `phase < n` into slot `base`,
in ascending phase order (the `for` loop of `makeNewState`). -/
def writeRows (vals : Nat → Nat) (base : Nat) (sp : Nat → Nat) : Nat → (Nat → Nat)
  | 0 => sp
  | n + 1 => upd (writeRows vals base sp n) (base + 1 + n) (vals n)

theorem writeRows_get_in (vals : Nat → Nat) (base : Nat) (sp : Nat → Nat) :
    ∀ n k, k < n → writeRows vals base sp n (base + 1 + k) = vals k := by
  intro n
  induction n with
  | zero => intro k hk; exact absurd hk (Nat.not_lt_zero k)
  | succ n ih =>
    intro k hk
    rcases Nat.lt_succ_iff_lt_or_eq.mp hk with h | h
    · rw [writeRows, upd_other _ _ (by omega)]
      exact ih k h
    · subst h
      rw [writeRows, upd_same]

theorem writeRows_get_out (vals : Nat → Nat) (base : Nat) (sp : Nat → Nat) :
    ∀ n j, (∀ k < n, j ≠ base + 1 + k) → writeRows vals base sp n j = sp j := by
  intro n
  induction n with
  | zero => intro j _; rfl
  | succ n ih =>
    intro j hj
    rw [writeRows, upd_other _ _ (hj n (Nat.lt_succ_self n))]
    exact ih j fun k hk => hj k (Nat.lt_succ_of_lt hk)

/-- The queue-and-table state mutated by `makeNewState`. -/
structure QState where
  space : Nat → Nat
  firstFree : Nat
  table : Nat → Nat

/-- `makeNewState` (src/ofind.c lines 916-933).  `none` models the
`failure()` exit inside `nextState` when the arena is exhausted.  The
`hashing && hash(s)` test short-circuits: with hashing off the table is
untouched. -/
def makeNewState (tab ptab : Nat → Nat) (period : Nat) (rows firstRow rowIndices : Nat → Nat)
    (hashing : Bool) (st : QState) (parent : Nat) : Option QState :=
  let s := st.firstFree
  if lastState ≤ s + period + 1 then none
  else
    let space2 := writeRows (fun phase => rows (firstRow phase + rowIndices phase)) s
      (upd st.space s parent) period
    if parentState space2 parent = parent ∧
        ((List.range period).all fun phase => rowOfState space2 s phase == 0) then
      some ⟨space2, s, st.table⟩
    else if hashing then
      let hr := hash tab ptab space2 period s st.table
      if hr.1 then some ⟨space2, s, hr.2⟩
      else some ⟨space2, s + period + 1, hr.2⟩
    else some ⟨space2, s + period + 1, st.table⟩

end OFind

namespace OFind

/-- The claim's per-phase equality between two states and their parents. -/
def sameRowsAndParents (space : Nat → Nat) (period s t : Nat) : Prop :=
  ∀ phase < period,
    rowOfState space s phase = rowOfState space t phase ∧
    rowOfState space (parentState space s) phase =
      rowOfState space (parentState space t) phase

theorem isDuplicate_iff (space : Nat → Nat) (period s t : Nat) :
    isDuplicate space period s t = true ↔ sameRowsAndParents space period s t := by
  unfold isDuplicate sameRowsAndParents
  rw [List.all_eq_true]
  constructor
  · intro h phase hph
    have h2 := h phase (List.mem_range.mpr hph)
    simp only [Bool.and_eq_true, beq_iff_eq] at h2
    exact h2
  · intro h phase hph
    simp only [Bool.and_eq_true, beq_iff_eq]
    exact h phase (List.mem_range.mp hph)

/-- Unrolling of the three-probe loop of `hash` into its case chain. -/
theorem hash_cases (tab ptab space : Nat → Nat) (period s : Nat) (table : Nat → Nat) :
    hash tab ptab space period s table =
      (if table (probeKeys (hashKey tab ptab space period s) 0 &&& HASHMASK) = 0 then
        (false, upd table (probeKeys (hashKey tab ptab space period s) 0 &&& HASHMASK) s)
      else if isDuplicate space period s
          (table (probeKeys (hashKey tab ptab space period s) 0 &&& HASHMASK)) then
        (true, table)
      else if table (probeKeys (hashKey tab ptab space period s) 1 &&& HASHMASK) = 0 then
        (false, upd table (probeKeys (hashKey tab ptab space period s) 1 &&& HASHMASK) s)
      else if isDuplicate space period s
          (table (probeKeys (hashKey tab ptab space period s) 1 &&& HASHMASK)) then
        (true, table)
      else if table (probeKeys (hashKey tab ptab space period s) 2 &&& HASHMASK) = 0 then
        (false, upd table (probeKeys (hashKey tab ptab space period s) 2 &&& HASHMASK) s)
      else if isDuplicate space period s
          (table (probeKeys (hashKey tab ptab space period s) 2 &&& HASHMASK)) then
        (true, table)
      else (false, table)) := rfl

end OFind

namespace OFind

/-- Slot examined by probe number `j` of `hash`. -/
def probeSlot (key : Nat) (table : Nat → Nat) (j : Nat) : Nat :=
  table (probeKeys key j &&& HASHMASK)

end OFind

/-- C6: `hash(s)` returns nonzero iff one of the (at most three) probed
slots — successive keys via `key += key >> 16` — holds a state whose rows
and parent's rows match `s`'s phase by phase; a probed empty slot stores
`s` and returns 0; three non-empty non-matching probes return 0 without
modifying the table; and a reported duplicate leaves the table unchanged. -/
theorem c6_hash_duplicate_probe (tab ptab space : Nat → Nat) (period s : Nat)
    (table : Nat → Nat) :
    ((OFind.hash tab ptab space period s table).1 = true ↔
      ∃ j < 3,
        (∀ i ≤ j, OFind.probeSlot (OFind.hashKey tab ptab space period s) table i ≠ 0) ∧
        OFind.sameRowsAndParents space period s
          (OFind.probeSlot (OFind.hashKey tab ptab space period s) table j)) ∧
    (∀ j < 3,
      (∀ i < j, OFind.probeSlot (OFind.hashKey tab ptab space period s) table i ≠ 0 ∧
        ¬ OFind.sameRowsAndParents space period s
            (OFind.probeSlot (OFind.hashKey tab ptab space period s) table i)) →
      OFind.probeSlot (OFind.hashKey tab ptab space period s) table j = 0 →
      OFind.hash tab ptab space period s table =
        (false, OFind.upd table
          (OFind.probeKeys (OFind.hashKey tab ptab space period s) j &&& OFind.HASHMASK) s)) ∧
    ((∀ i < 3, OFind.probeSlot (OFind.hashKey tab ptab space period s) table i ≠ 0 ∧
        ¬ OFind.sameRowsAndParents space period s
            (OFind.probeSlot (OFind.hashKey tab ptab space period s) table i)) →
      OFind.hash tab ptab space period s table = (false, table)) ∧
    ((OFind.hash tab ptab space period s table).1 = true →
      (OFind.hash tab ptab space period s table).2 = table) := by
  have hcases := OFind.hash_cases tab ptab space period s table
  set K := OFind.hashKey tab ptab space period s with hK
  simp only [OFind.probeSlot]
  by_cases h0 : table (OFind.probeKeys K 0 &&& OFind.HASHMASK) = 0
  · have hres : OFind.hash tab ptab space period s table =
        (false, OFind.upd table (OFind.probeKeys K 0 &&& OFind.HASHMASK) s) := by
      rw [hcases, if_pos h0]
    refine ⟨?_, ?_, ?_, ?_⟩
    · rw [hres]
      constructor
      · intro h
        simp at h
      · rintro ⟨j, _, hall, _⟩
        exact absurd h0 (hall 0 (Nat.zero_le j))
    · intro j hj hpre hempty
      interval_cases j
      · exact hres
      · exact absurd h0 (hpre 0 (by omega)).1
      · exact absurd h0 (hpre 0 (by omega)).1
    · intro hall
      exact absurd h0 (hall 0 (by omega)).1
    · intro h
      rw [hres] at h
      simp at h
  · by_cases d0 : OFind.isDuplicate space period s
        (table (OFind.probeKeys K 0 &&& OFind.HASHMASK)) = true
    · have hres : OFind.hash tab ptab space period s table = (true, table) := by
        rw [hcases, if_neg h0, if_pos d0]
      have hsame := (OFind.isDuplicate_iff space period s _).mp d0
      refine ⟨?_, ?_, ?_, ?_⟩
      · rw [hres]
        refine ⟨fun _ => ⟨0, by omega, fun i hi => ?_, hsame⟩, fun _ => rfl⟩
        have : i = 0 := Nat.le_zero.mp hi
        subst this
        exact h0
      · intro j hj hpre hempty
        interval_cases j
        · exact absurd hempty h0
        · exact absurd hsame (hpre 0 (by omega)).2
        · exact absurd hsame (hpre 0 (by omega)).2
      · intro hall
        exact absurd hsame (hall 0 (by omega)).2
      · intro _
        rw [hres]
    · by_cases h1 : table (OFind.probeKeys K 1 &&& OFind.HASHMASK) = 0
      · have hres : OFind.hash tab ptab space period s table =
            (false, OFind.upd table (OFind.probeKeys K 1 &&& OFind.HASHMASK) s) := by
          rw [hcases, if_neg h0, if_neg d0, if_pos h1]
        have hnd0 : ¬ OFind.sameRowsAndParents space period s
            (table (OFind.probeKeys K 0 &&& OFind.HASHMASK)) :=
          fun h => d0 ((OFind.isDuplicate_iff space period s _).mpr h)
        refine ⟨?_, ?_, ?_, ?_⟩
        · rw [hres]
          constructor
          · intro h
            simp at h
          · rintro ⟨j, hj, hall, hdup⟩
            interval_cases j
            · exact absurd hdup hnd0
            · exact absurd h1 (hall 1 (by omega))
            · exact absurd h1 (hall 1 (by omega))
        · intro j hj hpre hempty
          interval_cases j
          · exact absurd hempty h0
          · exact hres
          · exact absurd h1 (hpre 1 (by omega)).1
        · intro hall
          exact absurd h1 (hall 1 (by omega)).1
        · intro h
          rw [hres] at h
          simp at h
      · by_cases d1 : OFind.isDuplicate space period s
            (table (OFind.probeKeys K 1 &&& OFind.HASHMASK)) = true
        · have hres : OFind.hash tab ptab space period s table = (true, table) := by
            rw [hcases, if_neg h0, if_neg d0, if_neg h1, if_pos d1]
          have hsame := (OFind.isDuplicate_iff space period s _).mp d1
          refine ⟨?_, ?_, ?_, ?_⟩
          · rw [hres]
            refine ⟨fun _ => ⟨1, by omega, fun i hi => ?_, hsame⟩, fun _ => rfl⟩
            interval_cases i
            · exact h0
            · exact h1
          · intro j hj hpre hempty
            interval_cases j
            · exact absurd hempty h0
            · exact absurd hempty h1
            · exact absurd hsame (hpre 1 (by omega)).2
          · intro hall
            exact absurd hsame (hall 1 (by omega)).2
          · intro _
            rw [hres]
        · by_cases h2 : table (OFind.probeKeys K 2 &&& OFind.HASHMASK) = 0
          · have hres : OFind.hash tab ptab space period s table =
                (false, OFind.upd table (OFind.probeKeys K 2 &&& OFind.HASHMASK) s) := by
              rw [hcases, if_neg h0, if_neg d0, if_neg h1, if_neg d1, if_pos h2]
            have hnd0 : ¬ OFind.sameRowsAndParents space period s
                (table (OFind.probeKeys K 0 &&& OFind.HASHMASK)) :=
              fun h => d0 ((OFind.isDuplicate_iff space period s _).mpr h)
            have hnd1 : ¬ OFind.sameRowsAndParents space period s
                (table (OFind.probeKeys K 1 &&& OFind.HASHMASK)) :=
              fun h => d1 ((OFind.isDuplicate_iff space period s _).mpr h)
            refine ⟨?_, ?_, ?_, ?_⟩
            · rw [hres]
              constructor
              · intro h
                simp at h
              · rintro ⟨j, hj, hall, hdup⟩
                interval_cases j
                · exact absurd hdup hnd0
                · exact absurd hdup hnd1
                · exact absurd h2 (hall 2 (by omega))
            · intro j hj hpre hempty
              interval_cases j
              · exact absurd hempty h0
              · exact absurd hempty h1
              · exact hres
            · intro hall
              exact absurd h2 (hall 2 (by omega)).1
            · intro h
              rw [hres] at h
              simp at h
          · by_cases d2 : OFind.isDuplicate space period s
                (table (OFind.probeKeys K 2 &&& OFind.HASHMASK)) = true
            · have hres : OFind.hash tab ptab space period s table = (true, table) := by
                rw [hcases, if_neg h0, if_neg d0, if_neg h1, if_neg d1, if_neg h2,
                  if_pos d2]
              have hsame := (OFind.isDuplicate_iff space period s _).mp d2
              refine ⟨?_, ?_, ?_, ?_⟩
              · rw [hres]
                refine ⟨fun _ => ⟨2, by omega, fun i hi => ?_, hsame⟩, fun _ => rfl⟩
                interval_cases i
                · exact h0
                · exact h1
                · exact h2
              · intro j hj hpre hempty
                interval_cases j
                · exact absurd hempty h0
                · exact absurd hempty h1
                · exact absurd hempty h2
              · intro hall
                exact absurd hsame (hall 2 (by omega)).2
              · intro _
                rw [hres]
            · have hres : OFind.hash tab ptab space period s table = (false, table) := by
                rw [hcases, if_neg h0, if_neg d0, if_neg h1, if_neg d1, if_neg h2,
                  if_neg d2]
              have hnd : ∀ j, OFind.isDuplicate space period s
                  (table (OFind.probeKeys K j &&& OFind.HASHMASK)) = true →
                  j = 0 ∨ j = 1 ∨ j = 2 → False := by
                rintro j hd (rfl | rfl | rfl)
                exacts [d0 hd, d1 hd, d2 hd]
              refine ⟨?_, ?_, ?_, ?_⟩
              · rw [hres]
                constructor
                · intro h
                  simp at h
                · rintro ⟨j, hj, _, hdup⟩
                  have hdj := (OFind.isDuplicate_iff space period s _).mpr hdup
                  interval_cases j
                  · exact absurd hdj d0
                  · exact absurd hdj d1
                  · exact absurd hdj d2
              · intro j hj hpre hempty
                interval_cases j
                · exact absurd hempty h0
                · exact absurd hempty h1
                · exact absurd hempty h2
              · intro _
                exact hres
              · intro h
                rw [hres] at h
                simp at h

/-- C6 witness: with zero salts and an empty table, the first probe finds
an empty slot, so state 7 is stored there and no duplicate is reported. -/
theorem c6_hash_duplicate_probe_witness :
    OFind.hash (fun _ => 0) (fun _ => 0) (fun _ => 0) 1 7 (fun _ => 0) =
      (false, OFind.upd (fun _ => 0)
        (OFind.probeKeys (OFind.hashKey (fun _ => 0) (fun _ => 0) (fun _ => 0) 1 7) 0 &&&
          OFind.HASHMASK) 7) :=
  (c6_hash_duplicate_probe (fun _ => 0) (fun _ => 0) (fun _ => 0) 1 7 (fun _ => 0)).2.1
    0 (by omega) (fun i hi => absurd hi (Nat.not_lt_zero i)) rfl

/-- C5: under the capacity and sanity hypotheses (`nextState` does not
abort; the parent sits below the reserved slot), every `makeNewState`
call writes the parent reference and the selected candidate rows into the
slot at `firstFreeState`, and either advances `firstFreeState` by one
slot of `period + 1` words or retracts it to its entry value; the
retraction happens exactly when the parent is the root and every selected
row is zero, or when hashing is on and `hash` reports a duplicate. -/
theorem c5_makeNewState_advance_or_retract
    (tab ptab : Nat → Nat) (period : Nat) (rows firstRow rowIndices : Nat → Nat)
    (hashing : Bool) (st : OFind.QState) (parent : Nat)
    (hcap : st.firstFree + period + 1 < OFind.lastState)
    (hparent : parent < st.firstFree) :
    ∃ st', OFind.makeNewState tab ptab period rows firstRow rowIndices hashing st parent =
        some st' ∧
      st'.space st.firstFree = parent ∧
      (∀ phase < period, st'.space (st.firstFree + 1 + phase) =
        rows (firstRow phase + rowIndices phase)) ∧
      (st'.firstFree = st.firstFree ↔
        ((st.space parent = parent ∧
          ∀ phase < period, rows (firstRow phase + rowIndices phase) = 0) ∨
         (hashing = true ∧
           (OFind.hash tab ptab st'.space period st.firstFree st.table).1 = true))) ∧
      (st'.firstFree = st.firstFree ∨ st'.firstFree = st.firstFree + period + 1) := by
  set s := st.firstFree with hs
  set space2 := OFind.writeRows (fun phase => rows (firstRow phase + rowIndices phase)) s
    (OFind.upd st.space s parent) period with hsp2
  have f1 : space2 s = parent := by
    rw [hsp2, OFind.writeRows_get_out _ _ _ _ _ (fun k _ => by omega)]
    exact OFind.upd_same _ _ _
  have f2 : ∀ phase < period, space2 (s + 1 + phase) =
      rows (firstRow phase + rowIndices phase) := by
    intro phase hph
    rw [hsp2, OFind.writeRows_get_in _ _ _ _ _ hph]
  have f3 : space2 parent = st.space parent := by
    rw [hsp2, OFind.writeRows_get_out _ _ _ _ _ (fun k _ => by omega)]
    exact OFind.upd_other _ _ (by omega)
  have f4 : (((List.range period).all fun phase =>
      OFind.rowOfState space2 s phase == 0) = true) ↔
      ∀ phase < period, rows (firstRow phase + rowIndices phase) = 0 := by
    rw [List.all_eq_true]
    constructor
    · intro h phase hph
      have h2 := h phase (List.mem_range.mpr hph)
      rw [beq_iff_eq, OFind.rowOfState, f2 phase hph] at h2
      exact h2
    · intro h phase hph
      rw [beq_iff_eq, OFind.rowOfState, f2 phase (List.mem_range.mp hph)]
      exact h phase (List.mem_range.mp hph)
  rw [OFind.makeNewState]
  rw [if_neg (by omega)]
  simp only [← hs, ← hsp2]
  by_cases hc1 : OFind.parentState space2 parent = parent ∧
      ((List.range period).all fun phase => OFind.rowOfState space2 s phase == 0) = true
  · rw [if_pos hc1]
    refine ⟨⟨space2, s, st.table⟩, rfl, f1, f2, ?_, Or.inl rfl⟩
    simp only
    constructor
    · intro _
      left
      rw [OFind.parentState, f3] at hc1
      exact ⟨hc1.1, f4.mp hc1.2⟩
    · intro _
      trivial
  · rw [if_neg hc1]
    have hc1' : ¬ (st.space parent = parent ∧
        ∀ phase < period, rows (firstRow phase + rowIndices phase) = 0) := by
      intro h
      exact hc1 ⟨by rw [OFind.parentState, f3]; exact h.1, f4.mpr h.2⟩
    by_cases hh : hashing
    · rw [if_pos hh]
      by_cases hdup : (OFind.hash tab ptab space2 period s st.table).1 = true
      · rw [if_pos hdup]
        refine ⟨⟨space2, s, (OFind.hash tab ptab space2 period s st.table).2⟩,
          rfl, f1, f2, ?_, Or.inl rfl⟩
        simp only
        exact ⟨fun _ => Or.inr ⟨hh, hdup⟩, fun _ => trivial⟩
      · rw [if_neg hdup]
        refine ⟨⟨space2, s + period + 1, (OFind.hash tab ptab space2 period s st.table).2⟩,
          rfl, f1, f2, ?_, Or.inr rfl⟩
        simp only
        constructor
        · intro h
          omega
        · rintro (h | h)
          · exact absurd h hc1'
          · exact absurd h.2 hdup
    · rw [if_neg hh]
      refine ⟨⟨space2, s + period + 1, st.table⟩, rfl, f1, f2, ?_, Or.inr rfl⟩
      simp only
      constructor
      · intro h
        omega
      · rintro (h | h)
        · exact absurd h hc1'
        · exact absurd h.1 hh

/-- C5 witness: the theorem at period 1, zero salts, the root stored at
offset 0, parent 0, fresh slot 2, with a nonzero selected row: the call
succeeds and the hypotheses hold. -/
theorem c5_makeNewState_advance_or_retract_witness :
    ∃ st', OFind.makeNewState (fun _ => 0) (fun _ => 0) 1 (fun _ => 5) (fun _ => 0)
        (fun _ => 0) true ⟨fun _ => 0, 2, fun _ => 0⟩ 0 = some st' ∧
      st'.space 2 = 0 ∧
      (∀ phase < 1, st'.space (2 + 1 + phase) = (fun _ => 5) ((fun _ => 0) phase + (fun _ => 0) phase)) ∧
      (st'.firstFree = 2 ↔
        (((fun _ => 0) 0 = 0 ∧ ∀ phase < 1, (fun _ => 5) ((fun _ => 0) phase + (fun _ => 0) phase) = 0) ∨
         (true = true ∧
           (OFind.hash (fun _ => 0) (fun _ => 0) st'.space 1 2 (fun _ => 0)).1 = true))) ∧
      (st'.firstFree = 2 ∨ st'.firstFree = 2 + 1 + 1) :=
  c5_makeNewState_advance_or_retract (fun _ => 0) (fun _ => 0) 1 (fun _ => 5)
    (fun _ => 0) (fun _ => 0) true ⟨fun _ => 0, 2, fun _ => 0⟩ 0 (by decide) (by decide)

namespace OFind

/-! ## Extension tables and setupExtensions (src/ofind.c lines 201-292) -/

/-- The symmetry modes (`sym_type`, src/ofind.c line 33). -/
inductive SymType where
  | sNone : SymType
  | sOdd : SymType
  | sEven : SymType
deriving DecidableEq

/-- `EXTIDX` (src/ofind.c line 236). -/
def EXTIDX (x a b c : Nat) : Nat :=
  (x <<< 7) ||| ((a &&& 7) <<< 4) ||| ((b &&& 7) <<< 1) ||| ((c &&& 2) >>> 1)

/-- The neighbour-count rule bit selected in the `makeExtTab` loop body
(src/ofind.c lines 250-259): `9` plus one per live neighbour, minus 9 when
the centre cell (bit 1 of `a`) is live. -/
def ruleBitOf (x a b : Nat) : Nat :=
  9 * (1 - ((a >>> 1) &&& 1)) + (a &&& 1) + ((a >>> 2) &&& 1) +
    (b &&& 1) + ((b >>> 1) &&& 1) + ((b >>> 2) &&& 1) +
    ((x >>> 1) &&& 1) + ((x >>> 2) &&& 1) + ((x >>> 3) &&& 1)

/-- One entry of `extTab` after `makeExtTab` ran (src/ofind.c lines
241-263).  The nested loops over `(base, x, a, b)` OR `1 << (x >> 1)` into
entry `EXTIDX(base, a, b, c)` whenever `base` has bit `x & 7` and the rule
maps the window to successor bit `c`; decomposing the index
(`base = idx >> 7`, `a = (idx >> 4) & 7`, `b = (idx >> 1) & 7`,
`c`'s bit `= idx & 1`) gives the entry as a fold over `x` alone. -/
def extTab (rule idx : Nat) : Nat :=
  (List.range 16).foldl
    (fun acc x =>
      if (idx >>> 7).testBit (x &&& 7) &&
          (((rule >>> ruleBitOf x ((idx >>> 4) &&& 7) ((idx >>> 1) &&& 7)) &&& 1) ==
            (idx &&& 1)) then
        acc ||| (1 <<< (x >>> 1))
      else acc)
    0

/-- `maskedExtension` (src/ofind.c line 239). -/
def maskedExtension (rule x a b c m : Nat) : Nat :=
  extTab rule (EXTIDX x a b c) &&& extTab rule (m &&& EXTIDX x a b c)

/-- The seed bitmap of `setupExtensions` (src/ofind.c lines 268-285),
per symmetry mode. -/
def extSeed (rule : Nat) (sym : SymType) (a b c m : Nat) : Nat :=
  match sym with
  | .sNone =>
    maskedExtension rule
      (maskedExtension rule 1 (a <<< 2) (b <<< 2) (c <<< 2) m)
      (a <<< 1) (b <<< 1) (c <<< 1) m
  | .sOdd =>
    maskedExtension rule 0o377 ((a <<< 1) ||| ((a &&& 2) >>> 1))
      ((b <<< 1) ||| ((b &&& 2) >>> 1)) (c <<< 1) m &&& 0o245
  | .sEven =>
    maskedExtension rule 0o303 ((a <<< 1) ||| (a &&& 1)) ((b <<< 1) ||| (b &&& 1))
      (c <<< 1) m

/-- The running bitmap of `setupExtensions`' main loop (src/ofind.c lines
286-291): `extIter (i+1)` is `extensions[i]`. -/
def extIter (rule : Nat) (sym : SymType) (a b c m : Nat) : Nat → Nat
  | 0 => extSeed rule sym a b c m
  | i + 1 => maskedExtension rule (extIter rule sym a b c m i) (a >>> i) (b >>> i) (c >>> i) m

/-- The `sparkMask` value `-1L` truncated to a `Row` (uint32). -/
def ALLONES : Nat := 2 ^ 32 - 1

/-- The propagation test of `testCompatible` (src/ofind.c lines 358-359):
after `setupExtensions(a, b, c, -1L)`, the low two bits of
`extensions[totalWidth-1]` are inspected. -/
def extCheck (rule : Nat) (sym : SymType) (W a b c : Nat) : Bool :=
  3 &&& extIter rule sym a b c ALLONES W != 0

/-! ## testCompatible / compatible (src/ofind.c lines 328-374) -/

def NCOMPAT : Nat := 1 <<< 21

/-- The per-expansion configuration `testCompatible` reads: the rule and
symmetry, the widths, the current state's rows (`srow phase =
rowOfState(s, phase)`), and the per-phase candidate row ranges. -/
structure CompatCfg where
  rule : Nat
  sym : SymType
  rotorWidth : Nat
  leftStatorWidth : Nat
  rightStatorWidth : Nat
  period : Nat
  rows : Nat → Nat
  srow : Nat → Nat
  nRows : Nat → Nat
  firstRow : Nat → Nat

/-- `totalWidth` (src/ofind.c line 47). -/
def CompatCfg.W (cfg : CompatCfg) : Nat :=
  cfg.rotorWidth + cfg.leftStatorWidth + cfg.rightStatorWidth

/-- The value of `STATMASK` for this configuration. -/
def CompatCfg.mask (cfg : CompatCfg) : Nat :=
  STATMASK cfg.rotorWidth cfg.leftStatorWidth cfg.rightStatorWidth

/-- `prevPhase` computed at the top of `testCompatible` and `compatible`. -/
def prevPhaseOf (period phase : Nat) : Nat :=
  if phase = 0 then period - 1 else phase - 1

/-- The mutable compatibility storage: `firstCompat`, `compatBlockLength`
and the `compatBits` word array. -/
structure CompatSt where
  firstCompat : Nat → Nat
  blockLen : Nat → Nat
  bits : Nat → Nat

/-- Zero the `n` words starting at `base` (the clearing loop of
`testCompatible`, src/ofind.c lines 349-352). -/
def clearWords (bits : Nat → Nat) (base : Nat) : Nat → (Nat → Nat)
  | 0 => bits
  | n + 1 => upd (clearWords bits base n) (base + n) 0

/-- First stage of `testCompatible` (src/ofind.c lines 338-347): on the
phase's first row index, record `firstCompat[phase]` and
`compatBlockLength[phase]`. -/
def tcHeader (cfg : CompatCfg) (phase rowIndex : Nat) (st : CompatSt) : CompatSt :=
  if rowIndex = cfg.firstRow phase then
    ⟨upd st.firstCompat phase (if phase = 0 then 0
        else st.firstCompat (phase - 1) + st.blockLen (phase - 1) * cfg.nRows (phase - 1)),
      upd st.blockLen phase ((cfg.nRows (prevPhaseOf cfg.period phase) + 31) >>> 5),
      st.bits⟩
  else st

/-- The word offset `b` of `testCompatible` (src/ofind.c line 348). -/
def tcBase (cfg : CompatCfg) (phase rowIndex : Nat) (st : CompatSt) : Nat :=
  st.firstCompat phase + st.blockLen phase * (rowIndex - cfg.firstRow phase)

/-- Second stage (src/ofind.c lines 349-352): on the prev-phase's first
row index, zero the row's block of bit words. -/
def tcClear (cfg : CompatCfg) (phase prevRowIndex rowIndex : Nat) (st : CompatSt) :
    CompatSt :=
  if prevRowIndex = cfg.firstRow (prevPhaseOf cfg.period phase) then
    ⟨st.firstCompat, st.blockLen,
      clearWords st.bits (tcBase cfg phase rowIndex st) (st.blockLen phase)⟩
  else st

/-- Third stage (src/ofind.c lines 354-362): when the stators match and
the extension propagation reaches the last column, OR the prev-row's bit
into its word. -/
def tcStore (cfg : CompatCfg) (phase prevRowIndex rowIndex : Nat) (st : CompatSt) :
    CompatSt :=
  if cfg.rows prevRowIndex &&& cfg.mask ≠ cfg.rows rowIndex &&& cfg.mask then st
  else if extCheck cfg.rule cfg.sym cfg.W (cfg.rows prevRowIndex)
      (cfg.srow (prevPhaseOf cfg.period phase)) (cfg.rows rowIndex) then
    ⟨st.firstCompat, st.blockLen,
      upd st.bits
        (tcBase cfg phase rowIndex st + ((prevRowIndex - cfg.firstRow (prevPhaseOf cfg.period phase)) >>> 5))
        (st.bits (tcBase cfg phase rowIndex st +
            ((prevRowIndex - cfg.firstRow (prevPhaseOf cfg.period phase)) >>> 5)) |||
          (1 <<< ((prevRowIndex - cfg.firstRow (prevPhaseOf cfg.period phase)) &&& 31)))⟩
  else st

/-- The state transformation of `testCompatible(phase, prevRowIndex,
rowIndex, s)` (src/ofind.c lines 333-363), staged: header, clear, store.
`tcBase` is recomputed per stage, which matches the single computation of
`b` in the C because the header fields are unchanged after stage one. -/
def testCompatibleT (cfg : CompatCfg) (phase prevRowIndex rowIndex : Nat)
    (st : CompatSt) : CompatSt :=
  tcStore cfg phase prevRowIndex rowIndex
    (tcClear cfg phase prevRowIndex rowIndex (tcHeader cfg phase rowIndex st))

/-- `testCompatible` proper: on the phase's first row index the computed
block is bounds-checked against `NCOMPAT`, and `failure()` (modelled as
`none`) exits when it overflows; otherwise the transformation runs. -/
def testCompatible (cfg : CompatCfg) (phase prevRowIndex rowIndex : Nat)
    (st : CompatSt) : Option CompatSt :=
  if rowIndex = cfg.firstRow phase ∧
      NCOMPAT < (if phase = 0 then 0
        else st.firstCompat (phase - 1) + st.blockLen (phase - 1) * cfg.nRows (phase - 1)) +
        ((cfg.nRows (prevPhaseOf cfg.period phase) + 31) >>> 5) * cfg.nRows phase then
    none
  else some (testCompatibleT cfg phase prevRowIndex rowIndex st)

/-- `compatible(phase, prevRowIndex, rowIndex)` (src/ofind.c lines
365-374): the stored bit, nonzero when compatible. -/
def compatible (cfg : CompatCfg) (st : CompatSt) (phase prevRowIndex rowIndex : Nat) : Nat :=
  st.bits (st.firstCompat phase + st.blockLen phase * (rowIndex - cfg.firstRow phase) +
      ((prevRowIndex - cfg.firstRow (prevPhaseOf cfg.period phase)) >>> 5)) &&&
    (1 <<< ((prevRowIndex - cfg.firstRow (prevPhaseOf cfg.period phase)) &&& 31))

/-- The inner `j` loop of `processGroup`'s compatibility pass (src/ofind.c
lines 949-951): `testCompatible(phase, prevRowIndex, firstRow[phase]+j)`
for `j = 0..n-1`. -/
def testCompatLoopJ (cfg : CompatCfg) (phase prevRowIndex : Nat) (st : CompatSt) :
    Nat → Option CompatSt
  | 0 => some st
  | j + 1 => Option.bind (testCompatLoopJ cfg phase prevRowIndex st j)
      (testCompatible cfg phase prevRowIndex (cfg.firstRow phase + j))

/-- The outer `i` loop: `prevRowIndex = firstRow[prevPhase]+i` for
`i = 0..n-1`, each running the full `j` loop. -/
def testCompatLoopI (cfg : CompatCfg) (phase : Nat) (st : CompatSt) :
    Nat → Option CompatSt
  | 0 => some st
  | i + 1 => Option.bind (testCompatLoopI cfg phase st i)
      (fun st' => testCompatLoopJ cfg phase
        (cfg.firstRow (prevPhaseOf cfg.period phase) + i) st' (cfg.nRows phase))

/-- The phase loop of `processGroup` (src/ofind.c lines 944-952). -/
def testCompatPhases (cfg : CompatCfg) (st : CompatSt) : Nat → Option CompatSt
  | 0 => some st
  | p + 1 => Option.bind (testCompatPhases cfg st p)
      (fun st' => testCompatLoopI cfg p st' (cfg.nRows (prevPhaseOf cfg.period p)))

/-- The claimed condition for the `(phase, i, j)` compatibility bit:
stator columns agree and the extension propagation reaches the last
column. -/
def condBit (cfg : CompatCfg) (p i j : Nat) : Bool :=
  (cfg.rows (cfg.firstRow (prevPhaseOf cfg.period p) + i) &&& cfg.mask ==
    cfg.rows (cfg.firstRow p + j) &&& cfg.mask) &&
  extCheck cfg.rule cfg.sym cfg.W (cfg.rows (cfg.firstRow (prevPhaseOf cfg.period p) + i))
    (cfg.srow (prevPhaseOf cfg.period p)) (cfg.rows (cfg.firstRow p + j))

/-- `compatBlockLength[p]` as `testCompatible` assigns it. -/
def BLval (cfg : CompatCfg) (p : Nat) : Nat :=
  (cfg.nRows (prevPhaseOf cfg.period p) + 31) >>> 5

/-- `firstCompat[p]` as `testCompatible` assigns it. -/
def FCval (cfg : CompatCfg) : Nat → Nat
  | 0 => 0
  | p + 1 => FCval cfg p + BLval cfg p * cfg.nRows p

/-- The word of packed compatibility bits for column-word `w` of row `j`
in phase `p`, restricted to prev-rows `i < n`. -/
def wordVal (cfg : CompatCfg) (p j w : Nat) : Nat → Nat
  | 0 => 0
  | i + 1 => wordVal cfg p j w i |||
      (if i >>> 5 = w ∧ condBit cfg p i j = true then 1 <<< (i &&& 31) else 0)

end OFind

namespace OFind

theorem clearWords_get_in (bits : Nat → Nat) (base : Nat) :
    ∀ n w, w < n → clearWords bits base n (base + w) = 0 := by
  intro n
  induction n with
  | zero => intro w hw; exact absurd hw (Nat.not_lt_zero w)
  | succ n ih =>
    intro w hw
    rcases Nat.lt_succ_iff_lt_or_eq.mp hw with h | h
    · rw [clearWords, upd_other _ _ (by omega)]
      exact ih w h
    · subst h
      rw [clearWords, upd_same]

theorem clearWords_get_out (bits : Nat → Nat) (base : Nat) :
    ∀ n a, (∀ w < n, a ≠ base + w) → clearWords bits base n a = bits a := by
  intro n
  induction n with
  | zero => intro a _; rfl
  | succ n ih =>
    intro a ha
    rw [clearWords, upd_other _ _ (ha n (Nat.lt_succ_self n))]
    exact ih a fun w hw => ha w (Nat.lt_succ_of_lt hw)

theorem shiftRight5_lt_BLval (cfg : CompatCfg) (p i : Nat)
    (hi : i < cfg.nRows (prevPhaseOf cfg.period p)) : i >>> 5 < BLval cfg p := by
  rw [BLval, Nat.shiftRight_eq_div_pow, Nat.shiftRight_eq_div_pow]
  omega

/-- Effect of one `testCompatible` state transformation, called with
in-range indices `i`, `j` as `processGroup` does: phase-`p` header fields
get their final values, other headers are untouched, and within row `j`'s
word block the bits become "cleared on `i = 0`, then OR the `i`-bit when
the pair is compatible"; everything outside the row block is untouched. -/
theorem testCompatibleT_effect (cfg : CompatCfg) (p i j : Nat) (st st' : CompatSt)
    (hst' : st' = testCompatibleT cfg p (cfg.firstRow (prevPhaseOf cfg.period p) + i)
        (cfg.firstRow p + j) st)
    (hInv : ∀ q, q < p → st.firstCompat q = FCval cfg q ∧ st.blockLen q = BLval cfg q)
    (hHdr : j ≠ 0 → st.firstCompat p = FCval cfg p ∧ st.blockLen p = BLval cfg p)
    (hi : i < cfg.nRows (prevPhaseOf cfg.period p)) :
    (∀ q, q ≠ p → st'.firstCompat q = st.firstCompat q ∧ st'.blockLen q = st.blockLen q) ∧
    (st'.firstCompat p = FCval cfg p ∧ st'.blockLen p = BLval cfg p) ∧
    (∀ a, ¬ (FCval cfg p + BLval cfg p * j ≤ a ∧
        a < FCval cfg p + BLval cfg p * j + BLval cfg p) →
      st'.bits a = st.bits a) ∧
    (∀ w, w < BLval cfg p →
      st'.bits (FCval cfg p + BLval cfg p * j + w) =
        (if i = 0 then 0 else st.bits (FCval cfg p + BLval cfg p * j + w)) |||
        (if i >>> 5 = w ∧ condBit cfg p i j = true then 1 <<< (i &&& 31) else 0)) := by
  rw [testCompatibleT] at hst'
  set st1 := tcHeader cfg p (cfg.firstRow p + j) st with hst1
  set st2 := tcClear cfg p (cfg.firstRow (prevPhaseOf cfg.period p) + i)
    (cfg.firstRow p + j) st1 with hst2
  have hsub_j : cfg.firstRow p + j - cfg.firstRow p = j := by omega
  have hsub_i : cfg.firstRow (prevPhaseOf cfg.period p) + i -
      cfg.firstRow (prevPhaseOf cfg.period p) = i := by omega
  have hi5 := shiftRight5_lt_BLval cfg p i hi
  -- stage 1
  have h1p : st1.firstCompat p = FCval cfg p ∧ st1.blockLen p = BLval cfg p := by
    rw [hst1, tcHeader]
    by_cases hj0 : j = 0
    · subst hj0
      rw [if_pos (by omega)]
      refine ⟨?_, ?_⟩
      · show upd st.firstCompat p _ p = _
        rw [upd_same]
        cases p with
        | zero => rfl
        | succ q =>
          rw [if_neg (Nat.succ_ne_zero q)]
          simp only [Nat.add_sub_cancel]
          have hq := hInv q (Nat.lt_succ_self q)
          rw [hq.1, hq.2]
          rfl
      · show upd st.blockLen p _ p = _
        rw [upd_same]
        rfl
    · rw [if_neg (by omega)]
      exact hHdr hj0
  have h1q : ∀ q, q ≠ p → st1.firstCompat q = st.firstCompat q ∧
      st1.blockLen q = st.blockLen q := by
    intro q hq
    rw [hst1, tcHeader]
    split
    · exact ⟨upd_other _ _ hq, upd_other _ _ hq⟩
    · exact ⟨rfl, rfl⟩
  have h1bits : st1.bits = st.bits := by
    rw [hst1, tcHeader]
    split <;> rfl
  have hbase1 : tcBase cfg p (cfg.firstRow p + j) st1 =
      FCval cfg p + BLval cfg p * j := by
    rw [tcBase, h1p.1, h1p.2, hsub_j]
  -- stage 2
  have h2hdr : st2.firstCompat = st1.firstCompat ∧ st2.blockLen = st1.blockLen := by
    rw [hst2, tcClear]
    split <;> exact ⟨rfl, rfl⟩
  have h2p : st2.firstCompat p = FCval cfg p ∧ st2.blockLen p = BLval cfg p := by
    rw [h2hdr.1, h2hdr.2]; exact h1p
  have hbase2 : tcBase cfg p (cfg.firstRow p + j) st2 =
      FCval cfg p + BLval cfg p * j := by
    rw [tcBase, h2p.1, h2p.2, hsub_j]
  have h2bits_out : ∀ a, ¬ (FCval cfg p + BLval cfg p * j ≤ a ∧
      a < FCval cfg p + BLval cfg p * j + BLval cfg p) → st2.bits a = st.bits a := by
    intro a ha
    rw [hst2, tcClear]
    split
    · show clearWords st1.bits (tcBase cfg p (cfg.firstRow p + j) st1) (st1.blockLen p) a
        = st.bits a
      rw [hbase1, h1p.2, clearWords_get_out _ _ _ _ (fun w hw => by omega), h1bits]
    · rw [h1bits]
  have h2bits_in : ∀ w, w < BLval cfg p →
      st2.bits (FCval cfg p + BLval cfg p * j + w) =
        if i = 0 then 0 else st.bits (FCval cfg p + BLval cfg p * j + w) := by
    intro w hw
    rw [hst2, tcClear]
    by_cases hi0 : i = 0
    · rw [if_pos (by omega)]
      show clearWords st1.bits (tcBase cfg p (cfg.firstRow p + j) st1) (st1.blockLen p) _ = _
      rw [hbase1, h1p.2, if_pos hi0, clearWords_get_in _ _ _ _ hw]
    · rw [if_neg (by omega), if_neg hi0, h1bits]
  -- stage 3
  have h3hdr : st'.firstCompat = st2.firstCompat ∧ st'.blockLen = st2.blockLen := by
    rw [hst']
    rw [tcStore]
    split
    · exact ⟨rfl, rfl⟩
    · split <;> exact ⟨rfl, rfl⟩
  refine ⟨?_, ?_, ?_, ?_⟩
  · intro q hq
    rw [h3hdr.1, h3hdr.2, h2hdr.1, h2hdr.2]
    exact h1q q hq
  · rw [h3hdr.1, h3hdr.2]
    exact h2p
  · intro a ha
    rw [hst', tcStore]
    split
    · exact h2bits_out a ha
    · split
      · show upd st2.bits _ _ a = st.bits a
        rw [upd_other _ _ (by rw [hbase2, hsub_i]; omega)]
        exact h2bits_out a ha
      · exact h2bits_out a ha
  · intro w hw
    have hcond : condBit cfg p i j =
        ((cfg.rows (cfg.firstRow (prevPhaseOf cfg.period p) + i) &&& cfg.mask ==
          cfg.rows (cfg.firstRow p + j) &&& cfg.mask) &&
        extCheck cfg.rule cfg.sym cfg.W
          (cfg.rows (cfg.firstRow (prevPhaseOf cfg.period p) + i))
          (cfg.srow (prevPhaseOf cfg.period p)) (cfg.rows (cfg.firstRow p + j))) := rfl
    by_cases hmis : cfg.rows (cfg.firstRow (prevPhaseOf cfg.period p) + i) &&& cfg.mask ≠
        cfg.rows (cfg.firstRow p + j) &&& cfg.mask
    · have hcb : condBit cfg p i j = false := by
        rw [hcond]
        simp only [Bool.and_eq_false_iff]
        left
        simpa using hmis
      have hb3 : st'.bits = st2.bits := by
        rw [hst', tcStore, if_pos hmis]
      rw [hb3, h2bits_in w hw,
        if_neg (show ¬ (i >>> 5 = w ∧ condBit cfg p i j = true) from
          fun hc => by rw [hcb] at hc; exact absurd hc.2 (by simp)),
        Nat.or_zero]
    · by_cases hext : extCheck cfg.rule cfg.sym cfg.W
          (cfg.rows (cfg.firstRow (prevPhaseOf cfg.period p) + i))
          (cfg.srow (prevPhaseOf cfg.period p)) (cfg.rows (cfg.firstRow p + j)) = true
      · have hcb : condBit cfg p i j = true := by
          rw [hcond, hext]
          simp only [Bool.and_true]
          simpa using hmis
        have hb3 : st'.bits = upd st2.bits
            (tcBase cfg p (cfg.firstRow p + j) st2 +
              ((cfg.firstRow (prevPhaseOf cfg.period p) + i -
                cfg.firstRow (prevPhaseOf cfg.period p)) >>> 5))
            (st2.bits (tcBase cfg p (cfg.firstRow p + j) st2 +
              ((cfg.firstRow (prevPhaseOf cfg.period p) + i -
                cfg.firstRow (prevPhaseOf cfg.period p)) >>> 5)) |||
              (1 <<< ((cfg.firstRow (prevPhaseOf cfg.period p) + i -
                cfg.firstRow (prevPhaseOf cfg.period p)) &&& 31))) := by
          rw [hst', tcStore, if_neg hmis, if_pos hext]
        rw [hb3, hbase2, hsub_i]
        by_cases hwi : i >>> 5 = w
        · subst hwi
          rw [upd_same, h2bits_in _ hw,
            if_pos (show i >>> 5 = i >>> 5 ∧ condBit cfg p i j = true from ⟨rfl, hcb⟩)]
        · rw [upd_other _ _ (by omega), h2bits_in w hw,
            if_neg (show ¬ (i >>> 5 = w ∧ condBit cfg p i j = true) from
              fun hc => hwi hc.1),
            Nat.or_zero]
      · have hcb : condBit cfg p i j = false := by
          rw [hcond]
          simp only [Bool.and_eq_false_iff]
          right
          simpa using hext
        have hb3 : st'.bits = st2.bits := by
          rw [hst', tcStore, if_neg hmis, if_neg hext]
        rw [hb3, h2bits_in w hw,
          if_neg (show ¬ (i >>> 5 = w ∧ condBit cfg p i j = true) from
            fun hc => by rw [hcb] at hc; exact absurd hc.2 (by simp)),
          Nat.or_zero]

end OFind

namespace OFind

theorem testCompatible_some {cfg : CompatCfg} {p pri ri : Nat} {st st' : CompatSt}
    (h : testCompatible cfg p pri ri st = some st') :
    st' = testCompatibleT cfg p pri ri st := by
  rw [testCompatible] at h
  by_cases hcc : ri = cfg.firstRow p ∧
      NCOMPAT < (if p = 0 then 0
        else st.firstCompat (p - 1) + st.blockLen (p - 1) * cfg.nRows (p - 1)) +
        ((cfg.nRows (prevPhaseOf cfg.period p) + 31) >>> 5) * cfg.nRows p
  · rw [if_pos hcc] at h
    exact absurd h (by simp)
  · rw [if_neg hcc] at h
    cases h
    rfl

theorem testBit_one_shift (k t : Nat) : (1 <<< k).testBit t = true ↔ t = k := by
  rw [Nat.shiftLeft_eq, Nat.one_mul]
  constructor
  · intro h
    by_contra hne
    rw [Nat.testBit_two_pow_of_ne (Ne.symm hne)] at h
    exact absurd h (by simp)
  · intro h
    subst h
    exact Nat.testBit_two_pow_self

theorem and_one_shift_ne_zero (x k : Nat) : x &&& (1 <<< k) ≠ 0 ↔ x.testBit k = true := by
  rw [Nat.shiftLeft_eq, Nat.one_mul, Nat.and_two_pow]
  cases h : x.testBit k
  · simp
  · have h2 : (2 : Nat) ^ k ≠ 0 := Nat.pos_iff_ne_zero.mp (pow_pos (by norm_num) k)
    simp [h2]

theorem wordVal_testBit (cfg : CompatCfg) (p j w : Nat) :
    ∀ n t, ((wordVal cfg p j w n).testBit t = true ↔
      ∃ i', i' < n ∧ i' >>> 5 = w ∧ i' &&& 31 = t ∧ condBit cfg p i' j = true) := by
  intro n
  induction n with
  | zero =>
    intro t
    simp only [wordVal, Nat.zero_testBit]
    constructor
    · intro h
      exact absurd h (by simp)
    · rintro ⟨i', hi', _⟩
      exact absurd hi' (Nat.not_lt_zero i')
  | succ n ih =>
    intro t
    rw [wordVal, Nat.testBit_or, Bool.or_eq_true, ih]
    constructor
    · rintro (⟨i', hi', h5, h31, hc⟩ | hnew)
      · exact ⟨i', Nat.lt_succ_of_lt hi', h5, h31, hc⟩
      · by_cases hcn : n >>> 5 = w ∧ condBit cfg p n j = true
        · rw [if_pos hcn, testBit_one_shift] at hnew
          exact ⟨n, Nat.lt_succ_self n, hcn.1, hnew.symm, hcn.2⟩
        · rw [if_neg hcn] at hnew
          exact absurd hnew (by simp)
    · rintro ⟨i', hi', h5, h31, hc⟩
      rcases Nat.lt_succ_iff_lt_or_eq.mp hi' with h' | h'
      · exact Or.inl ⟨i', h', h5, h31, hc⟩
      · subst h'
        rw [if_pos ⟨h5, hc⟩, testBit_one_shift]
        exact Or.inr h31.symm
    
theorem and31_eq_mod (x : Nat) : x &&& 31 = x % 32 := by
  rw [show (31 : Nat) = 2 ^ 5 - 1 from rfl, Nat.and_pow_two_sub_one_eq_mod]

theorem shiftRight5_eq_div (x : Nat) : x >>> 5 = x / 32 := by
  rw [Nat.shiftRight_eq_div_pow]

theorem wordVal_read (cfg : CompatCfg) (p j n i : Nat) (hi : i < n) :
    (wordVal cfg p j (i >>> 5) n &&& (1 <<< (i &&& 31)) ≠ 0) ↔
      condBit cfg p i j = true := by
  rw [and_one_shift_ne_zero, wordVal_testBit]
  constructor
  · rintro ⟨i', hi', h5, h31, hc⟩
    have he : i' = i := by
      rw [shiftRight5_eq_div, shiftRight5_eq_div] at h5
      rw [and31_eq_mod, and31_eq_mod] at h31
      omega
    subst he
    exact hc
  · intro hc
    exact ⟨i, hi, rfl, rfl, hc⟩

end OFind

namespace OFind

theorem mul_block_mono (B : Nat) : ∀ j1 j2 : Nat, j1 < j2 → B * j1 + B ≤ B * j2 := by
  intro j1 j2 h
  have h2 := Nat.mul_le_mul_left B (Nat.succ_le_of_lt h)
  rw [Nat.mul_succ] at h2
  exact h2

/-- Effect of the full inner `j` loop for one prev-row `i`: the phase-`p`
header is in place and every row block `j' < n` holds "cleared on
`i = 0`, with the `i`-bit ORed in where the pair is compatible". -/
theorem testCompatLoopJ_spec (cfg : CompatCfg) (p i : Nat)
    (hi : i < cfg.nRows (prevPhaseOf cfg.period p)) :
    ∀ (n : Nat) (st st' : CompatSt),
      (∀ q, q < p → st.firstCompat q = FCval cfg q ∧ st.blockLen q = BLval cfg q) →
      1 ≤ n →
      testCompatLoopJ cfg p (cfg.firstRow (prevPhaseOf cfg.period p) + i) st n = some st' →
      (∀ q, q ≠ p → st'.firstCompat q = st.firstCompat q ∧ st'.blockLen q = st.blockLen q) ∧
      (st'.firstCompat p = FCval cfg p ∧ st'.blockLen p = BLval cfg p) ∧
      (∀ a, (∀ j', j' < n → ¬ (FCval cfg p + BLval cfg p * j' ≤ a ∧
          a < FCval cfg p + BLval cfg p * j' + BLval cfg p)) → st'.bits a = st.bits a) ∧
      (∀ j', j' < n → ∀ w, w < BLval cfg p →
        st'.bits (FCval cfg p + BLval cfg p * j' + w) =
          (if i = 0 then 0 else st.bits (FCval cfg p + BLval cfg p * j' + w)) |||
          (if i >>> 5 = w ∧ condBit cfg p i j' = true then 1 <<< (i &&& 31) else 0)) := by
  intro n
  induction n with
  | zero =>
    intro st st' _ h1 _
    exact absurd h1 (by omega)
  | succ m ih =>
    intro st st' hInv h1 hrun
    rw [testCompatLoopJ] at hrun
    obtain ⟨stm, hstm, hcall⟩ := Option.bind_eq_some.mp hrun
    have hT := testCompatible_some hcall
    rcases Nat.eq_zero_or_pos m with hm0 | hmpos
    · subst hm0
      rw [testCompatLoopJ] at hstm
      cases hstm
      have heff := testCompatibleT_effect cfg p i 0 st st' hT hInv
        (fun hne => absurd rfl hne) hi
      refine ⟨heff.1, heff.2.1, ?_, ?_⟩
      · intro a ha
        exact heff.2.2.1 a (ha 0 (by omega))
      · intro j' hj' w hw
        have hj0 : j' = 0 := by omega
        subst hj0
        exact heff.2.2.2 w hw
    · have ihm := ih st stm hInv hmpos hstm
      have heff := testCompatibleT_effect cfg p i m stm st' hT
        (fun q hq => by
          rw [(ihm.1 q (by omega)).1, (ihm.1 q (by omega)).2]
          exact hInv q hq)
        (fun _ => ihm.2.1) hi
      refine ⟨?_, heff.2.1, ?_, ?_⟩
      · intro q hq
        rw [(heff.1 q hq).1, (heff.1 q hq).2]
        exact ihm.1 q hq
      · intro a ha
        rw [heff.2.2.1 a (ha m (by omega))]
        exact ihm.2.2.1 a (fun j' hj' => ha j' (by omega))
      · intro j' hj' w hw
        rcases Nat.lt_succ_iff_lt_or_eq.mp hj' with h' | h'
        · have hd := mul_block_mono (BLval cfg p) j' m h'
          rw [heff.2.2.1 _ (by omega)]
          exact ihm.2.2.2 j' h' w hw
        · subst h'
          rw [heff.2.2.2 w hw]
          congr 1
          by_cases hi0 : i = 0
          · rw [if_pos hi0, if_pos hi0]
          · rw [if_neg hi0, if_neg hi0]
            exact ihm.2.2.1 _ (fun j'' hj'' => by
              have hd := mul_block_mono (BLval cfg p) j'' j' hj''
              omega)

end OFind

namespace OFind

theorem wordVal_zero (cfg : CompatCfg) (p j w : Nat) : wordVal cfg p j w 0 = 0 := rfl

theorem wordVal_succ (cfg : CompatCfg) (p j w n : Nat) :
    wordVal cfg p j w (n + 1) = wordVal cfg p j w n |||
      (if n >>> 5 = w ∧ condBit cfg p n j = true then 1 <<< (n &&& 31) else 0) := rfl

/-- Effect of the full `i`-by-`j` loop nest for phase `p`: header set,
other phases' headers untouched, every row block holds the packed
compatibility bitmap over the prev-rows processed so far, everything
outside the phase's block untouched. -/
theorem testCompatLoopI_spec (cfg : CompatCfg) (p : Nat) (hnp : 1 ≤ cfg.nRows p) :
    ∀ (n : Nat) (st st' : CompatSt),
      (∀ q, q < p → st.firstCompat q = FCval cfg q ∧ st.blockLen q = BLval cfg q) →
      1 ≤ n → n ≤ cfg.nRows (prevPhaseOf cfg.period p) →
      testCompatLoopI cfg p st n = some st' →
      (∀ q, q ≠ p → st'.firstCompat q = st.firstCompat q ∧ st'.blockLen q = st.blockLen q) ∧
      (st'.firstCompat p = FCval cfg p ∧ st'.blockLen p = BLval cfg p) ∧
      (∀ a, (∀ j', j' < cfg.nRows p → ¬ (FCval cfg p + BLval cfg p * j' ≤ a ∧
          a < FCval cfg p + BLval cfg p * j' + BLval cfg p)) → st'.bits a = st.bits a) ∧
      (∀ j', j' < cfg.nRows p → ∀ w, w < BLval cfg p →
        st'.bits (FCval cfg p + BLval cfg p * j' + w) = wordVal cfg p j' w n) := by
  intro n
  induction n with
  | zero =>
    intro st st' _ h1 _ _
    exact absurd h1 (by omega)
  | succ m ih =>
    intro st st' hInv h1 hn hrun
    rw [testCompatLoopI] at hrun
    obtain ⟨stm, hstm, hcall⟩ := Option.bind_eq_some.mp hrun
    rcases Nat.eq_zero_or_pos m with hm0 | hmpos
    · subst hm0
      rw [testCompatLoopI] at hstm
      cases hstm
      have hJ := testCompatLoopJ_spec cfg p 0 (by omega) (cfg.nRows p) st st' hInv hnp hcall
      refine ⟨hJ.1, hJ.2.1, hJ.2.2.1, ?_⟩
      intro j' hj' w hw
      rw [hJ.2.2.2 j' hj' w hw, if_pos rfl,
        show (1 : Nat) = 0 + 1 from rfl, wordVal_succ, wordVal_zero]
    · have ihm := ih st stm hInv hmpos (by omega) hstm
      have hJ := testCompatLoopJ_spec cfg p m (by omega) (cfg.nRows p) stm st'
        (fun q hq => by
          rw [(ihm.1 q (by omega)).1, (ihm.1 q (by omega)).2]
          exact hInv q hq)
        hnp hcall
      refine ⟨?_, hJ.2.1, ?_, ?_⟩
      · intro q hq
        rw [(hJ.1 q hq).1, (hJ.1 q hq).2]
        exact ihm.1 q hq
      · intro a ha
        rw [hJ.2.2.1 a ha]
        exact ihm.2.2.1 a ha
      · intro j' hj' w hw
        rw [hJ.2.2.2 j' hj' w hw, if_neg (by omega), ihm.2.2.2 j' hj' w hw, wordVal_succ]

theorem FCval_mono (cfg : CompatCfg) : ∀ q1 q2, q1 ≤ q2 → FCval cfg q1 ≤ FCval cfg q2 := by
  intro q1 q2 h
  induction q2 with
  | zero =>
    have hq : q1 = 0 := by omega
    subst hq
    exact le_refl _
  | succ k ih =>
    by_cases hk : q1 = k + 1
    · subst hk
      exact le_refl _
    · have h2 := ih (by omega)
      have h3 : FCval cfg (k + 1) = FCval cfg k + BLval cfg k * cfg.nRows k := rfl
      omega

/-- After the full per-phase loop nest of `processGroup`, every phase's
header holds its final value and every word of every phase's block holds
the full packed compatibility bitmap. -/
theorem testCompatPhases_spec (cfg : CompatCfg)
    (hnr : ∀ q, q < cfg.period → 1 ≤ cfg.nRows q) :
    ∀ (k : Nat) (st st' : CompatSt), k ≤ cfg.period →
      testCompatPhases cfg st k = some st' →
      (∀ q, q < k → st'.firstCompat q = FCval cfg q ∧ st'.blockLen q = BLval cfg q) ∧
      (∀ p', p' < k → ∀ j', j' < cfg.nRows p' → ∀ w, w < BLval cfg p' →
        st'.bits (FCval cfg p' + BLval cfg p' * j' + w) =
          wordVal cfg p' j' w (cfg.nRows (prevPhaseOf cfg.period p'))) := by
  intro k
  induction k with
  | zero =>
    intro st st' _ _
    exact ⟨fun q hq => absurd hq (by omega), fun p' hp' => absurd hp' (by omega)⟩
  | succ k ih =>
    intro st st' hk hrun
    rw [testCompatPhases] at hrun
    obtain ⟨stk, hstk, hcall⟩ := Option.bind_eq_some.mp hrun
    have ihk := ih st stk (by omega) hstk
    have hprevlt : prevPhaseOf cfg.period k < cfg.period := by
      rw [prevPhaseOf]
      split <;> omega
    have hI := testCompatLoopI_spec cfg k (hnr k (by omega))
      (cfg.nRows (prevPhaseOf cfg.period k)) stk st'
      (fun q hq => ihk.1 q hq) (hnr _ hprevlt) (le_refl _) hcall
    constructor
    · intro q hq
      rcases Nat.lt_succ_iff_lt_or_eq.mp hq with h' | h'
      · rw [(hI.1 q (by omega)).1, (hI.1 q (by omega)).2]
        exact ihk.1 q h'
      · subst h'
        exact hI.2.1
    · intro p' hp' j' hj' w hw
      rcases Nat.lt_succ_iff_lt_or_eq.mp hp' with h' | h'
      · rw [hI.2.2.1 _ ?_]
        · exact ihk.2 p' h' j' hj' w hw
        · intro j'' hj''
          have haddr : FCval cfg p' + BLval cfg p' * j' + w < FCval cfg (p' + 1) := by
            have h4 := mul_block_mono (BLval cfg p') j' (cfg.nRows p') hj'
            show _ < FCval cfg p' + BLval cfg p' * cfg.nRows p'
            omega
          have hmono := FCval_mono cfg (p' + 1) k (by omega)
          omega
      · subst h'
        exact hI.2.2.2 j' hj' w hw

end OFind

/-- C4: after `processGroup` runs `testCompatible` over the full Cartesian
product for every phase, the bit read back by `compatible(p,
firstRow[p-1]+i, firstRow[p]+j)` is set iff the two candidate rows agree
on the stator columns (STATMASK) and `setupExtensions(prev_row,
rowOfState(s, prevPhase), row, -1)` leaves one of the two low bits of
`extensions[totalWidth-1]` set. -/
theorem c4_testCompatible_bit_matrix (cfg : OFind.CompatCfg) (st0 st' : OFind.CompatSt)
    (hnr : ∀ q, q < cfg.period → 1 ≤ cfg.nRows q)
    (hrun : OFind.testCompatPhases cfg st0 cfg.period = some st') :
    ∀ p, p < cfg.period → ∀ i, i < cfg.nRows (OFind.prevPhaseOf cfg.period p) →
      ∀ j, j < cfg.nRows p →
      (OFind.compatible cfg st' p (cfg.firstRow (OFind.prevPhaseOf cfg.period p) + i)
          (cfg.firstRow p + j) ≠ 0 ↔
        cfg.rows (cfg.firstRow (OFind.prevPhaseOf cfg.period p) + i) &&& cfg.mask =
            cfg.rows (cfg.firstRow p + j) &&& cfg.mask ∧
        OFind.extCheck cfg.rule cfg.sym cfg.W
          (cfg.rows (cfg.firstRow (OFind.prevPhaseOf cfg.period p) + i))
          (cfg.srow (OFind.prevPhaseOf cfg.period p))
          (cfg.rows (cfg.firstRow p + j)) = true) := by
  intro p hp i hi j hj
  have hspec := OFind.testCompatPhases_spec cfg hnr cfg.period st0 st' (le_refl _) hrun
  have hi5 := OFind.shiftRight5_lt_BLval cfg p i hi
  have hb := hspec.2 p hp j hj (i >>> 5) hi5
  have hsubj : cfg.firstRow p + j - cfg.firstRow p = j := by omega
  have hsubi : cfg.firstRow (OFind.prevPhaseOf cfg.period p) + i -
      cfg.firstRow (OFind.prevPhaseOf cfg.period p) = i := by omega
  rw [OFind.compatible, (hspec.1 p hp).1, (hspec.1 p hp).2, hsubi, hsubj, hb]
  rw [OFind.wordVal_read cfg p j _ i hi]
  rw [show OFind.condBit cfg p i j =
    ((cfg.rows (cfg.firstRow (OFind.prevPhaseOf cfg.period p) + i) &&& cfg.mask ==
      cfg.rows (cfg.firstRow p + j) &&& cfg.mask) &&
    OFind.extCheck cfg.rule cfg.sym cfg.W
      (cfg.rows (cfg.firstRow (OFind.prevPhaseOf cfg.period p) + i))
      (cfg.srow (OFind.prevPhaseOf cfg.period p))
      (cfg.rows (cfg.firstRow p + j))) from rfl]
  rw [Bool.and_eq_true]
  rw [show ((cfg.rows (cfg.firstRow (OFind.prevPhaseOf cfg.period p) + i) &&& cfg.mask ==
      cfg.rows (cfg.firstRow p + j) &&& cfg.mask) = true) =
    (cfg.rows (cfg.firstRow (OFind.prevPhaseOf cfg.period p) + i) &&& cfg.mask =
      cfg.rows (cfg.firstRow p + j) &&& cfg.mask) from by
    rw [beq_iff_eq]]

namespace OFind

/-- Concrete configuration for the C4 witness: Life rule, even symmetry,
one rotor column, period 1, a single all-zero candidate row per phase. -/
def c4cfgW : CompatCfg :=
  ⟨0o10014, .sEven, 1, 0, 0, 1, fun _ => 0, fun _ => 0, fun _ => 1, fun _ => 0⟩

/-- All-zero initial compatibility storage for the C4 witness. -/
def c4st0W : CompatSt := ⟨fun _ => 0, fun _ => 0, fun _ => 0⟩

end OFind

/-- C4 witness: the theorem applied to the concrete one-phase
configuration, whose loop nest is a single `testCompatible` call. -/
theorem c4_testCompatible_bit_matrix_witness :
    OFind.compatible OFind.c4cfgW
        (OFind.testCompatibleT OFind.c4cfgW 0 0 0 OFind.c4st0W) 0
        (OFind.c4cfgW.firstRow (OFind.prevPhaseOf OFind.c4cfgW.period 0) + 0)
        (OFind.c4cfgW.firstRow 0 + 0) ≠ 0 ↔
      OFind.c4cfgW.rows (OFind.c4cfgW.firstRow (OFind.prevPhaseOf OFind.c4cfgW.period 0) + 0) &&&
          OFind.c4cfgW.mask =
        OFind.c4cfgW.rows (OFind.c4cfgW.firstRow 0 + 0) &&& OFind.c4cfgW.mask ∧
      OFind.extCheck OFind.c4cfgW.rule OFind.c4cfgW.sym OFind.c4cfgW.W
        (OFind.c4cfgW.rows (OFind.c4cfgW.firstRow (OFind.prevPhaseOf OFind.c4cfgW.period 0) + 0))
        (OFind.c4cfgW.srow (OFind.prevPhaseOf OFind.c4cfgW.period 0))
        (OFind.c4cfgW.rows (OFind.c4cfgW.firstRow 0 + 0)) = true :=
  c4_testCompatible_bit_matrix OFind.c4cfgW OFind.c4st0W
    (OFind.testCompatibleT OFind.c4cfgW 0 0 0 OFind.c4st0W)
    (fun _ _ => le_refl 1) rfl 0 (by decide) 0 (by decide) 0 (by decide)

namespace OFind

/-! ## testReachable / reachable (src/ofind.c lines 376-421)

The claim takes a completed compatibility matrix as given: `compat phase
prevRowIndex rowIndex` abstracts `compatible(phase, prevRowIndex,
rowIndex) != 0`. -/

/-- Configuration read by `testReachable`. -/
structure ReachCfg where
  period : Nat
  nRows : Nat → Nat
  firstRow : Nat → Nat
  compat : Nat → Nat → Nat → Bool

/-- `REACHLENGTH` (src/ofind.c line 380). -/
def RL (cfg : ReachCfg) : Nat := (cfg.nRows 0 + 31) >>> 5

/-- The mutable reachability storage: `firstReach` and the `reachBits`
word array. -/
structure ReachSt where
  firstReach : Nat → Nat
  bits : Nat → Nat

/-- `reachable(phase, firstRowIndex, rowIndex)` (src/ofind.c lines 384-387). -/
def reachable (cfg : ReachCfg) (st : ReachSt) (phase firstRowIndex rowIndex : Nat) : Nat :=
  st.bits (st.firstReach phase + rowIndex * RL cfg + (firstRowIndex >>> 5)) &&&
    (1 <<< (firstRowIndex &&& 31))

/-- OR the `n` words at `src` into the `n` words at `dst` (the `k` loop
of `testReachable`, src/ofind.c lines 416-417). -/
def orWords (bits : Nat → Nat) (dst src : Nat) : Nat → (Nat → Nat)
  | 0 => bits
  | k + 1 =>
    let b := orWords bits dst src k
    upd b (dst + k) (b (dst + k) ||| b (src + k))

/-- Base case inner loop (src/ofind.c lines 398-402): set bit `j` of row
`i`'s block when `compatible(0, firstRow[period-1]+i, firstRow[0]+j)`. -/
def reachBase_j (cfg : ReachCfg) (i : Nat) (bits : Nat → Nat) : Nat → (Nat → Nat)
  | 0 => bits
  | j + 1 =>
    let b := reachBase_j cfg i bits j
    if cfg.compat 0 (cfg.firstRow (cfg.period - 1) + i) (cfg.firstRow 0 + j) then
      upd b (i * RL cfg + (j >>> 5)) (b (i * RL cfg + (j >>> 5)) ||| (1 <<< (j &&& 31)))
    else b

/-- Base case outer loop (src/ofind.c lines 396-402): zero then fill each
last-phase row's block. -/
def reachBase_i (cfg : ReachCfg) (bits : Nat → Nat) : Nat → (Nat → Nat)
  | 0 => bits
  | i + 1 => reachBase_j cfg i (clearWords (reachBase_i cfg bits i) (i * RL cfg) (RL cfg))
      (cfg.nRows 0)

/-- Induction-phase inner loop over `j` (src/ofind.c lines 414-417). -/
def reachStep_j (cfg : ReachCfg) (p i : Nat) (st : ReachSt) : Nat → ReachSt
  | 0 => st
  | j + 1 =>
    let s := reachStep_j cfg p i st j
    if cfg.compat (p + 1) (cfg.firstRow p + i) (cfg.firstRow (p + 1) + j) then
      ⟨s.firstReach, orWords s.bits (s.firstReach p + i * RL cfg)
        (s.firstReach (p + 1) + j * RL cfg) (RL cfg)⟩
    else s

/-- Induction-phase loop over `i` (src/ofind.c lines 411-418): zero row
`i`'s block, then OR in the reachable blocks of compatible next-phase rows. -/
def reachStep_i (cfg : ReachCfg) (p : Nat) (st : ReachSt) : Nat → ReachSt
  | 0 => st
  | i + 1 =>
    let s := reachStep_i cfg p st i
    reachStep_j cfg p i
      ⟨s.firstReach, clearWords s.bits (s.firstReach p + i * RL cfg) (RL cfg)⟩
      (cfg.nRows (p + 1))

/-- The backward phase loop (src/ofind.c lines 405-420): iteration `d`
handles `phase = period - 2 - d`, records its `firstReach`, checks the
`NCOMPAT` capacity (`failure()` = `none`), and fills its blocks. -/
def reachPhases (cfg : ReachCfg) (st : ReachSt) : Nat → Option ReachSt
  | 0 => some st
  | d + 1 => Option.bind (reachPhases cfg st d) (fun s =>
      if NCOMPAT ≤ s.firstReach (cfg.period - 2 - d + 1) +
          cfg.nRows (cfg.period - 2 - d + 1) * RL cfg +
          cfg.nRows (cfg.period - 2 - d) * RL cfg then none
      else some (reachStep_i cfg (cfg.period - 2 - d)
        ⟨upd s.firstReach (cfg.period - 2 - d)
          (s.firstReach (cfg.period - 2 - d + 1) +
            cfg.nRows (cfg.period - 2 - d + 1) * RL cfg), s.bits⟩
        (cfg.nRows (cfg.period - 2 - d))))

/-- `testReachable()` (src/ofind.c lines 389-421): base phase
`period - 1` at offset 0, then the backward phase loop. -/
def testReachable (cfg : ReachCfg) (st : ReachSt) : Option ReachSt :=
  reachPhases cfg
    ⟨upd st.firstReach (cfg.period - 1) 0,
      reachBase_i cfg st.bits (cfg.nRows (cfg.period - 1))⟩
    (cfg.period - 1)

/-- Executable form of the claim's path condition, by distance `d` from
the last phase: `d = 0` is one-step compatibility into phase 0, `d + 1`
prepends one compatibility edge at phase `period - 1 - d`. -/
def pathReachAux (cfg : ReachCfg) : Nat → Nat → Nat → Bool
  | 0, j, k => cfg.compat 0 (cfg.firstRow (cfg.period - 1) + j) (cfg.firstRow 0 + k)
  | d + 1, j, k => (List.range (cfg.nRows (cfg.period - 1 - d))).any fun j' =>
      cfg.compat (cfg.period - 1 - d) (cfg.firstRow (cfg.period - 2 - d) + j)
        (cfg.firstRow (cfg.period - 1 - d) + j') && pathReachAux cfg d j' k

/-- Modelled from the claim's words: there exist indices
`j_{p+1}, ..., j_{P-1}` forming a directed compatibility path from
phase-`p` row `j` through the later phases, wrapping to phase-0 row `k`. -/
def pathReachP (cfg : ReachCfg) : Nat → Nat → Nat → Prop
  | 0, j, k => cfg.compat 0 (cfg.firstRow (cfg.period - 1) + j) (cfg.firstRow 0 + k) = true
  | d + 1, j, k => ∃ j', j' < cfg.nRows (cfg.period - 1 - d) ∧
      cfg.compat (cfg.period - 1 - d) (cfg.firstRow (cfg.period - 2 - d) + j)
        (cfg.firstRow (cfg.period - 1 - d) + j') = true ∧ pathReachP cfg d j' k

theorem pathReachAux_iff (cfg : ReachCfg) :
    ∀ d j k, pathReachAux cfg d j k = true ↔ pathReachP cfg d j k := by
  intro d
  induction d with
  | zero =>
    intro j k
    rfl
  | succ d ih =>
    intro j k
    rw [pathReachAux, pathReachP, List.any_eq_true]
    constructor
    · rintro ⟨j', hj', hcond⟩
      rw [Bool.and_eq_true, ih] at hcond
      exact ⟨j', List.mem_range.mp hj', hcond.1, hcond.2⟩
    · rintro ⟨j', hj', hc, hp⟩
      exact ⟨j', List.mem_range.mpr hj', by rw [Bool.and_eq_true, ih]; exact ⟨hc, hp⟩⟩

/-- `firstReach[p]` as `testReachable` assigns it, by distance `d` from
the last phase. -/
def FRvalAux (cfg : ReachCfg) : Nat → Nat
  | 0 => 0
  | d + 1 => FRvalAux cfg d + cfg.nRows (cfg.period - 1 - d) * RL cfg

def FRval (cfg : ReachCfg) (p : Nat) : Nat := FRvalAux cfg (cfg.period - 1 - p)

/-- The packed reachability word for distance `d`, row `j`, word `w`,
over phase-0 rows `k < n`. -/
def reachWord (cfg : ReachCfg) (d j w : Nat) : Nat → Nat
  | 0 => 0
  | k + 1 => reachWord cfg d j w k |||
      (if k >>> 5 = w ∧ pathReachAux cfg d j k = true then 1 <<< (k &&& 31) else 0)

end OFind

namespace OFind

theorem shiftRight5_lt_words {n i : Nat} (hi : i < n) : i >>> 5 < (n + 31) >>> 5 := by
  rw [shiftRight5_eq_div, shiftRight5_eq_div]
  omega

theorem mul_block_mono' (B : Nat) (j1 j2 : Nat) (h : j1 < j2) : j1 * B + B ≤ j2 * B := by
  have h2 := mul_block_mono B j1 j2 h
  rw [Nat.mul_comm B j1, Nat.mul_comm B j2] at h2
  exact h2

theorem FRvalAux_mono (cfg : ReachCfg) : ∀ d1 d2, d1 ≤ d2 →
    FRvalAux cfg d1 ≤ FRvalAux cfg d2 := by
  intro d1 d2 h
  induction d2 with
  | zero =>
    have : d1 = 0 := by omega
    subst this
    exact le_refl _
  | succ k ih =>
    by_cases hk : d1 = k + 1
    · subst hk
      exact le_refl _
    · have h2 := ih (by omega)
      have h3 : FRvalAux cfg (k + 1) = FRvalAux cfg k +
          cfg.nRows (cfg.period - 1 - k) * RL cfg := rfl
      omega

theorem FRval_eq_step (cfg : ReachCfg) (p : Nat) (hp : p + 1 ≤ cfg.period - 1) :
    FRval cfg p = FRval cfg (p + 1) + cfg.nRows (p + 1) * RL cfg := by
  rw [FRval, FRval]
  have h1 : cfg.period - 1 - p = (cfg.period - 1 - (p + 1)) + 1 := by omega
  rw [h1]
  have h2 : FRvalAux cfg ((cfg.period - 1 - (p + 1)) + 1) =
      FRvalAux cfg (cfg.period - 1 - (p + 1)) +
        cfg.nRows (cfg.period - 1 - (cfg.period - 1 - (p + 1))) * RL cfg := rfl
  rw [h2]
  have h3 : cfg.period - 1 - (cfg.period - 1 - (p + 1)) = p + 1 := by omega
  rw [h3]

/-- Blocks of later phases lie strictly below `FRval p`. -/
theorem FRval_block_le (cfg : ReachCfg) (q p : Nat) (hpq : p < q)
    (hq : q ≤ cfg.period - 1) :
    FRval cfg q + cfg.nRows q * RL cfg ≤ FRval cfg p := by
  have hstep : FRval cfg (q - 1) = FRval cfg q + cfg.nRows q * RL cfg := by
    have h := FRval_eq_step cfg (q - 1) (by omega)
    have h2 : q - 1 + 1 = q := by omega
    rw [h2] at h
    exact h
  rw [← hstep, FRval, FRval]
  exact FRvalAux_mono cfg _ _ (by omega)

theorem orWords_get_out (bits : Nat → Nat) (dst src : Nat) :
    ∀ n a, (∀ k, k < n → a ≠ dst + k) → orWords bits dst src n a = bits a := by
  intro n
  induction n with
  | zero => intro a _; rfl
  | succ n ih =>
    intro a ha
    rw [orWords]
    show upd (orWords bits dst src n) _ _ a = bits a
    rw [upd_other _ _ (ha n (Nat.lt_succ_self n))]
    exact ih a fun k hk => ha k (Nat.lt_succ_of_lt hk)

theorem orWords_get_in (bits : Nat → Nat) (dst src n : Nat)
    (hd : ∀ k1 k2, k1 < n → k2 < n → dst + k1 ≠ src + k2) :
    ∀ k, k < n → orWords bits dst src n (dst + k) = bits (dst + k) ||| bits (src + k) := by
  induction n with
  | zero => intro k hk; exact absurd hk (Nat.not_lt_zero k)
  | succ n ih =>
    intro k hk
    rw [orWords]
    show upd (orWords bits dst src n) _ _ (dst + k) = _
    rcases Nat.lt_succ_iff_lt_or_eq.mp hk with h | h
    · rw [upd_other _ _ (by omega)]
      exact ih (fun k1 k2 h1 h2 => hd k1 k2 (by omega) (by omega)) k h
    · subst h
      rw [upd_same,
        orWords_get_out _ _ _ _ _ (fun k' hk' => by omega),
        orWords_get_out bits dst src k _ (fun k' hk' he => hd k' k (by omega) hk he.symm)]

theorem reachWord_testBit (cfg : ReachCfg) (d j w : Nat) :
    ∀ n t, ((reachWord cfg d j w n).testBit t = true ↔
      ∃ k', k' < n ∧ k' >>> 5 = w ∧ k' &&& 31 = t ∧ pathReachAux cfg d j k' = true) := by
  intro n
  induction n with
  | zero =>
    intro t
    simp only [reachWord, Nat.zero_testBit]
    constructor
    · intro h
      exact absurd h (by simp)
    · rintro ⟨k', hk', _⟩
      exact absurd hk' (Nat.not_lt_zero k')
  | succ n ih =>
    intro t
    rw [reachWord, Nat.testBit_or, Bool.or_eq_true, ih]
    constructor
    · rintro (⟨k', hk', h5, h31, hc⟩ | hnew)
      · exact ⟨k', Nat.lt_succ_of_lt hk', h5, h31, hc⟩
      · by_cases hcn : n >>> 5 = w ∧ pathReachAux cfg d j n = true
        · rw [if_pos hcn, testBit_one_shift] at hnew
          exact ⟨n, Nat.lt_succ_self n, hcn.1, hnew.symm, hcn.2⟩
        · rw [if_neg hcn] at hnew
          exact absurd hnew (by simp)
    · rintro ⟨k', hk', h5, h31, hc⟩
      rcases Nat.lt_succ_iff_lt_or_eq.mp hk' with h' | h'
      · exact Or.inl ⟨k', h', h5, h31, hc⟩
      · subst h'
        rw [if_pos ⟨h5, hc⟩, testBit_one_shift]
        exact Or.inr h31.symm

theorem reachWord_read (cfg : ReachCfg) (d j n k : Nat) (hk : k < n) :
    (reachWord cfg d j (k >>> 5) n &&& (1 <<< (k &&& 31)) ≠ 0) ↔
      pathReachAux cfg d j k = true := by
  rw [and_one_shift_ne_zero, reachWord_testBit]
  constructor
  · rintro ⟨k', hk', h5, h31, hc⟩
    have he : k' = k := by
      rw [shiftRight5_eq_div, shiftRight5_eq_div] at h5
      rw [and31_eq_mod, and31_eq_mod] at h31
      omega
    subst he
    exact hc
  · intro hc
    exact ⟨k, hk, rfl, rfl, hc⟩

end OFind

namespace OFind

/-- The OR of the phase-`p+1` source words selected by compatibility with
prev-row `i`, as accumulated by the `j` loop. -/
def orSel (cfg : ReachCfg) (p i : Nat) (F bits0 : Nat → Nat) (w : Nat) : Nat → Nat
  | 0 => 0
  | j + 1 => orSel cfg p i F bits0 w j |||
      (if cfg.compat (p + 1) (cfg.firstRow p + i) (cfg.firstRow (p + 1) + j) = true
       then bits0 (F (p + 1) + j * RL cfg + w) else 0)

theorem orSel_congr (cfg : ReachCfg) (p i : Nat) (F : Nat → Nat) (bits0 bits1 : Nat → Nat)
    (w : Nat) : ∀ m, (∀ j, j < m → bits0 (F (p + 1) + j * RL cfg + w) =
      bits1 (F (p + 1) + j * RL cfg + w)) →
    orSel cfg p i F bits0 w m = orSel cfg p i F bits1 w m := by
  intro m
  induction m with
  | zero => intro _; rfl
  | succ m ih =>
    intro h
    rw [orSel, orSel, ih (fun j hj => h j (Nat.lt_succ_of_lt hj))]
    congr 1
    split
    · exact h m (Nat.lt_succ_self m)
    · rfl

theorem orSel_testBit (cfg : ReachCfg) (p i : Nat) (F bits0 : Nat → Nat) (w : Nat) :
    ∀ m t, ((orSel cfg p i F bits0 w m).testBit t = true ↔
      ∃ j', j' < m ∧
        cfg.compat (p + 1) (cfg.firstRow p + i) (cfg.firstRow (p + 1) + j') = true ∧
        (bits0 (F (p + 1) + j' * RL cfg + w)).testBit t = true) := by
  intro m
  induction m with
  | zero =>
    intro t
    simp only [orSel, Nat.zero_testBit]
    constructor
    · intro h
      exact absurd h (by simp)
    · rintro ⟨j', hj', _⟩
      exact absurd hj' (Nat.not_lt_zero j')
  | succ m ih =>
    intro t
    rw [orSel, Nat.testBit_or, Bool.or_eq_true, ih]
    constructor
    · rintro (⟨j', hj', hc, hb⟩ | hnew)
      · exact ⟨j', Nat.lt_succ_of_lt hj', hc, hb⟩
      · by_cases hc : cfg.compat (p + 1) (cfg.firstRow p + i) (cfg.firstRow (p + 1) + m) = true
        · rw [if_pos hc] at hnew
          exact ⟨m, Nat.lt_succ_self m, hc, hnew⟩
        · rw [if_neg hc] at hnew
          exact absurd hnew (by simp)
    · rintro ⟨j', hj', hc, hb⟩
      rcases Nat.lt_succ_iff_lt_or_eq.mp hj' with h' | h'
      · exact Or.inl ⟨j', h', hc, hb⟩
      · subst h'
        rw [if_pos hc]
        exact Or.inr hb

/-- Folding one phase of source blocks into the next distance level of
the path predicate. -/
theorem orSel_eq_reachWord (cfg : ReachCfg) (d i w : Nat) (F bits0 : Nat → Nat)
    (hper : d + 2 ≤ cfg.period)
    (hsrc : ∀ j', j' < cfg.nRows (cfg.period - 2 - d + 1) →
      bits0 (F (cfg.period - 2 - d + 1) + j' * RL cfg + w) =
        reachWord cfg d j' w (cfg.nRows 0)) :
    orSel cfg (cfg.period - 2 - d) i F bits0 w (cfg.nRows (cfg.period - 2 - d + 1)) =
      reachWord cfg (d + 1) i w (cfg.nRows 0) := by
  have hpp : cfg.period - 2 - d + 1 = cfg.period - 1 - d := by omega
  apply Nat.eq_of_testBit_eq
  intro t
  rw [Bool.eq_iff_iff, orSel_testBit, reachWord_testBit]
  constructor
  · rintro ⟨j', hj', hc, hb⟩
    rw [hsrc j' hj', reachWord_testBit] at hb
    obtain ⟨k', hk', h5, h31, hp⟩ := hb
    refine ⟨k', hk', h5, h31, ?_⟩
    rw [pathReachAux, List.any_eq_true]
    refine ⟨j', List.mem_range.mpr (by rw [← hpp]; exact hj'), ?_⟩
    rw [Bool.and_eq_true, ← hpp]
    exact ⟨hc, hp⟩
  · rintro ⟨k', hk', h5, h31, hp⟩
    rw [pathReachAux, List.any_eq_true] at hp
    obtain ⟨j', hj', hcp⟩ := hp
    rw [Bool.and_eq_true] at hcp
    have hj'' : j' < cfg.nRows (cfg.period - 2 - d + 1) := by
      rw [hpp]
      exact List.mem_range.mp hj'
    refine ⟨j', hj'', by rw [hpp]; exact hcp.1, ?_⟩
    rw [hsrc j' hj'', reachWord_testBit]
    exact ⟨k', hk', h5, h31, hcp.2⟩

end OFind

namespace OFind

theorem reachBase_j_spec (cfg : ReachCfg) (i : Nat) (bits : Nat → Nat) :
    ∀ m, m ≤ cfg.nRows 0 →
      (∀ a, (∀ w, w < RL cfg → a ≠ i * RL cfg + w) → reachBase_j cfg i bits m a = bits a) ∧
      (∀ w, w < RL cfg → reachBase_j cfg i bits m (i * RL cfg + w) =
        bits (i * RL cfg + w) ||| reachWord cfg 0 i w m) := by
  intro m
  induction m with
  | zero =>
    intro _
    exact ⟨fun a _ => rfl, fun w hw => by simp [reachBase_j, reachWord]⟩
  | succ m ih =>
    intro hm
    obtain ⟨iho, ihi⟩ := ih (by omega)
    have haddr : m >>> 5 < RL cfg := shiftRight5_lt_words (show m < cfg.nRows 0 by omega)
    by_cases hc : cfg.compat 0 (cfg.firstRow (cfg.period - 1) + i) (cfg.firstRow 0 + m) = true
    · have hres : reachBase_j cfg i bits (m + 1) =
          upd (reachBase_j cfg i bits m) (i * RL cfg + (m >>> 5))
            (reachBase_j cfg i bits m (i * RL cfg + (m >>> 5)) ||| (1 <<< (m &&& 31))) := by
        rw [reachBase_j]
        exact if_pos hc
      constructor
      · intro a ha
        rw [hres, upd_other _ _ (ha (m >>> 5) haddr)]
        exact iho a ha
      · intro w hw
        by_cases hw5 : m >>> 5 = w
        · subst hw5
          rw [hres, upd_same, ihi _ haddr,
            show reachWord cfg 0 i (m >>> 5) (m + 1) =
              reachWord cfg 0 i (m >>> 5) m ||| (1 <<< (m &&& 31)) from by
                rw [reachWord, if_pos ⟨rfl, show pathReachAux cfg 0 i m = true from hc⟩],
            Nat.or_assoc]
        · rw [hres, upd_other _ _ (fun he => hw5 (Nat.add_left_cancel he).symm), ihi w hw,
            show reachWord cfg 0 i w (m + 1) = reachWord cfg 0 i w m from by
              rw [reachWord, if_neg (fun hco => hw5 hco.1), Nat.or_zero]]
    · have hres : reachBase_j cfg i bits (m + 1) = reachBase_j cfg i bits m := by
        rw [reachBase_j]
        exact if_neg hc
      refine ⟨fun a ha => by rw [hres]; exact iho a ha, fun w hw => ?_⟩
      rw [hres, ihi w hw,
        show reachWord cfg 0 i w (m + 1) = reachWord cfg 0 i w m from by
          rw [reachWord, if_neg (fun hco => hc hco.2), Nat.or_zero]]

theorem reachBase_i_spec (cfg : ReachCfg) (bits : Nat → Nat) :
    ∀ n, (∀ a, (∀ i w, i < n → w < RL cfg → a ≠ i * RL cfg + w) →
        reachBase_i cfg bits n a = bits a) ∧
      (∀ i, i < n → ∀ w, w < RL cfg →
        reachBase_i cfg bits n (i * RL cfg + w) = reachWord cfg 0 i w (cfg.nRows 0)) := by
  intro n
  induction n with
  | zero =>
    exact ⟨fun a _ => rfl, fun i hi => absurd hi (Nat.not_lt_zero i)⟩
  | succ n ih =>
    obtain ⟨iho, ihi⟩ := ih
    obtain ⟨jo, ji⟩ := reachBase_j_spec cfg n
      (clearWords (reachBase_i cfg bits n) (n * RL cfg) (RL cfg)) (cfg.nRows 0) (le_refl _)
    constructor
    · intro a ha
      rw [reachBase_i, jo a (fun w hw => ha n w (Nat.lt_succ_self n) hw),
        clearWords_get_out _ _ _ a (fun w hw => ha n w (Nat.lt_succ_self n) hw)]
      exact iho a (fun i w hi hw => ha i w (Nat.lt_succ_of_lt hi) hw)
    · intro i hi w hw
      rw [reachBase_i]
      rcases Nat.lt_succ_iff_lt_or_eq.mp hi with h | h
      · have hblk := mul_block_mono' (RL cfg) i n h
        rw [jo _ (fun w' hw' he => by omega),
          clearWords_get_out _ _ _ _ (fun w' hw' he => by omega)]
        exact ihi i h w hw
      · subst h
        rw [ji w hw, clearWords_get_in _ _ _ w hw, Nat.zero_or]

end OFind

namespace OFind

theorem reachStep_j_spec (cfg : ReachCfg) (p i : Nat) (st : ReachSt)
    (hd : ∀ j2 k1 k2, j2 < cfg.nRows (p + 1) → k1 < RL cfg → k2 < RL cfg →
      st.firstReach p + i * RL cfg + k1 ≠ st.firstReach (p + 1) + j2 * RL cfg + k2) :
    ∀ m, m ≤ cfg.nRows (p + 1) →
      (reachStep_j cfg p i st m).firstReach = st.firstReach ∧
      (∀ a, (∀ w, w < RL cfg → a ≠ st.firstReach p + i * RL cfg + w) →
        (reachStep_j cfg p i st m).bits a = st.bits a) ∧
      (∀ w, w < RL cfg →
        (reachStep_j cfg p i st m).bits (st.firstReach p + i * RL cfg + w) =
          st.bits (st.firstReach p + i * RL cfg + w) |||
            orSel cfg p i st.firstReach st.bits w m) := by
  intro m
  induction m with
  | zero =>
    intro _
    exact ⟨rfl, fun a _ => rfl, fun w hw => by simp [reachStep_j, orSel]⟩
  | succ m ih =>
    intro hm
    obtain ⟨ihF, iho, ihi⟩ := ih (by omega)
    by_cases hc : cfg.compat (p + 1) (cfg.firstRow p + i) (cfg.firstRow (p + 1) + m) = true
    · have hres : reachStep_j cfg p i st (m + 1) =
          ⟨(reachStep_j cfg p i st m).firstReach,
            orWords (reachStep_j cfg p i st m).bits
              ((reachStep_j cfg p i st m).firstReach p + i * RL cfg)
              ((reachStep_j cfg p i st m).firstReach (p + 1) + m * RL cfg) (RL cfg)⟩ := by
        rw [reachStep_j]
        exact if_pos hc
      have hm' : m < cfg.nRows (p + 1) := by omega
      refine ⟨by rw [hres]; exact ihF, ?_, ?_⟩
      · intro a ha
        rw [hres]
        show orWords (reachStep_j cfg p i st m).bits
            ((reachStep_j cfg p i st m).firstReach p + i * RL cfg)
            ((reachStep_j cfg p i st m).firstReach (p + 1) + m * RL cfg) (RL cfg) a =
          st.bits a
        rw [ihF, orWords_get_out _ _ _ _ a (fun k hk => ha k hk)]
        exact iho a ha
      · intro w hw
        rw [hres]
        show orWords (reachStep_j cfg p i st m).bits
            ((reachStep_j cfg p i st m).firstReach p + i * RL cfg)
            ((reachStep_j cfg p i st m).firstReach (p + 1) + m * RL cfg) (RL cfg)
            (st.firstReach p + i * RL cfg + w) = _
        rw [ihF]
        rw [show st.firstReach p + i * RL cfg + w =
          (st.firstReach p + i * RL cfg) + w from rfl]
        rw [orWords_get_in _ _ _ _ (fun k1 k2 hk1 hk2 => hd m k1 k2 hm' hk1 hk2) w hw]
        rw [ihi w hw,
          iho _ (fun w' hw' he => hd m w' w hm' hw' hw he.symm),
          show orSel cfg p i st.firstReach st.bits w (m + 1) =
            orSel cfg p i st.firstReach st.bits w m |||
              st.bits (st.firstReach (p + 1) + m * RL cfg + w) from by
            rw [orSel]
            congr 1
            exact if_pos hc,
          Nat.or_assoc]
    · have hres : reachStep_j cfg p i st (m + 1) = reachStep_j cfg p i st m := by
        rw [reachStep_j]
        exact if_neg hc
      refine ⟨by rw [hres]; exact ihF, fun a ha => by rw [hres]; exact iho a ha,
        fun w hw => ?_⟩
      rw [hres, ihi w hw,
        show orSel cfg p i st.firstReach st.bits w (m + 1) =
          orSel cfg p i st.firstReach st.bits w m ||| 0 from by
            rw [orSel]
            congr 1
            exact if_neg hc,
        Nat.or_zero]

end OFind

namespace OFind

theorem reachSt_mk_firstReach (F B : Nat → Nat) :
    ReachSt.firstReach ⟨F, B⟩ = F := rfl

theorem reachSt_mk_bits (F B : Nat → Nat) :
    ReachSt.bits ⟨F, B⟩ = B := rfl

theorem reachStep_i_spec (cfg : ReachCfg) (p : Nat) (st : ReachSt)
    (hd : ∀ i2 j2 k1 k2, i2 < cfg.nRows p → j2 < cfg.nRows (p + 1) → k1 < RL cfg →
      k2 < RL cfg →
      st.firstReach p + i2 * RL cfg + k1 ≠ st.firstReach (p + 1) + j2 * RL cfg + k2) :
    ∀ n, n ≤ cfg.nRows p →
      (reachStep_i cfg p st n).firstReach = st.firstReach ∧
      (∀ a, (∀ i2 w, i2 < n → w < RL cfg → a ≠ st.firstReach p + i2 * RL cfg + w) →
        (reachStep_i cfg p st n).bits a = st.bits a) ∧
      (∀ i2, i2 < n → ∀ w, w < RL cfg →
        (reachStep_i cfg p st n).bits (st.firstReach p + i2 * RL cfg + w) =
          orSel cfg p i2 st.firstReach st.bits w (cfg.nRows (p + 1))) := by
  intro n
  induction n with
  | zero =>
    intro _
    exact ⟨rfl, fun a _ => rfl, fun i2 hi2 => absurd hi2 (Nat.not_lt_zero i2)⟩
  | succ n ih =>
    intro hn
    obtain ⟨ihF, iho, ihi⟩ := ih (by omega)
    have hn' : n < cfg.nRows p := by omega
    obtain ⟨jF, jo, ji⟩ := reachStep_j_spec cfg p n
      ⟨(reachStep_i cfg p st n).firstReach,
        clearWords (reachStep_i cfg p st n).bits
          ((reachStep_i cfg p st n).firstReach p + n * RL cfg) (RL cfg)⟩
      (by
        intro j2 k1 k2 hj2 hk1 hk2
        rw [reachSt_mk_firstReach, ihF]
        exact hd n j2 k1 k2 hn' hj2 hk1 hk2)
      (cfg.nRows (p + 1)) (le_refl _)
    have hunfold : reachStep_i cfg p st (n + 1) =
        reachStep_j cfg p n
          ⟨(reachStep_i cfg p st n).firstReach,
            clearWords (reachStep_i cfg p st n).bits
              ((reachStep_i cfg p st n).firstReach p + n * RL cfg) (RL cfg)⟩
          (cfg.nRows (p + 1)) := by
      rw [reachStep_i]
    refine ⟨?_, ?_, ?_⟩
    · rw [hunfold, jF, reachSt_mk_firstReach]
      exact ihF
    · intro a ha
      rw [hunfold, jo a (fun w hw => by
          rw [reachSt_mk_firstReach, ihF]
          exact ha n w (Nat.lt_succ_self n) hw),
        reachSt_mk_bits, ihF,
        clearWords_get_out _ _ _ a (fun w hw => ha n w (Nat.lt_succ_self n) hw)]
      exact iho a (fun i2 w hi2 hw => ha i2 w (Nat.lt_succ_of_lt hi2) hw)
    · intro i2 hi2 w hw
      rw [hunfold]
      rcases Nat.lt_succ_iff_lt_or_eq.mp hi2 with h | h
      · have hblk := mul_block_mono' (RL cfg) i2 n h
        rw [jo _ (fun w' hw' => by
            rw [reachSt_mk_firstReach, ihF]
            omega),
          reachSt_mk_bits, ihF,
          clearWords_get_out _ _ _ _ (fun w' hw' => by omega)]
        exact ihi i2 h w hw
      · subst h
        have hFp : (reachStep_i cfg p st i2).firstReach p = st.firstReach p := by
          rw [ihF]
        have hFp1 : (reachStep_i cfg p st i2).firstReach (p + 1) = st.firstReach (p + 1) := by
          rw [ihF]
        have hji : (reachStep_j cfg p i2
              ⟨(reachStep_i cfg p st i2).firstReach,
                clearWords (reachStep_i cfg p st i2).bits
                  ((reachStep_i cfg p st i2).firstReach p + i2 * RL cfg) (RL cfg)⟩
              (cfg.nRows (p + 1))).bits
            ((reachStep_i cfg p st i2).firstReach p + i2 * RL cfg + w) =
            clearWords (reachStep_i cfg p st i2).bits
              ((reachStep_i cfg p st i2).firstReach p + i2 * RL cfg) (RL cfg)
              ((reachStep_i cfg p st i2).firstReach p + i2 * RL cfg + w) |||
            orSel cfg p i2 (reachStep_i cfg p st i2).firstReach
              (clearWords (reachStep_i cfg p st i2).bits
                ((reachStep_i cfg p st i2).firstReach p + i2 * RL cfg) (RL cfg))
              w (cfg.nRows (p + 1)) := ji w hw
        rw [← ihF, hji, clearWords_get_in _ _ _ w hw, Nat.zero_or]
        apply orSel_congr
        intro j hj
        rw [hFp1, clearWords_get_out _ _ _ _ (fun w' hw' he => by
            rw [hFp] at he
            exact hd i2 j w' w hn' hj hw' hw he.symm)]
        exact iho _ (fun i3 w' hi3 hw' he =>
          hd i3 j w' w (by omega) hj hw' hw he.symm)

end OFind

namespace OFind

theorem reachStep_i_spec' (cfg : ReachCfg) (p : Nat) (U B : Nat → Nat)
    (hd : ∀ i2 j2 k1 k2, i2 < cfg.nRows p → j2 < cfg.nRows (p + 1) → k1 < RL cfg →
      k2 < RL cfg → U p + i2 * RL cfg + k1 ≠ U (p + 1) + j2 * RL cfg + k2) :
    ∀ n, n ≤ cfg.nRows p →
      (reachStep_i cfg p ⟨U, B⟩ n).firstReach = U ∧
      (∀ a, (∀ i2 w, i2 < n → w < RL cfg → a ≠ U p + i2 * RL cfg + w) →
        (reachStep_i cfg p ⟨U, B⟩ n).bits a = B a) ∧
      (∀ i2, i2 < n → ∀ w, w < RL cfg →
        (reachStep_i cfg p ⟨U, B⟩ n).bits (U p + i2 * RL cfg + w) =
          orSel cfg p i2 U B w (cfg.nRows (p + 1))) :=
  reachStep_i_spec cfg p ⟨U, B⟩ hd

theorem reachPhases_spec (cfg : ReachCfg) (st : ReachSt) :
    ∀ k, k ≤ cfg.period - 1 →
      (∀ q, cfg.period - 1 ≤ q → q ≤ cfg.period - 1 → st.firstReach q = FRval cfg q) →
      (∀ q, cfg.period - 1 ≤ q → q ≤ cfg.period - 1 → ∀ j, j < cfg.nRows q →
        ∀ w, w < RL cfg →
        st.bits (FRval cfg q + j * RL cfg + w) =
          reachWord cfg (cfg.period - 1 - q) j w (cfg.nRows 0)) →
      ∀ s', reachPhases cfg st k = some s' →
        (∀ q, cfg.period - 1 - k ≤ q → q ≤ cfg.period - 1 →
          s'.firstReach q = FRval cfg q) ∧
        (∀ q, cfg.period - 1 - k ≤ q → q ≤ cfg.period - 1 → ∀ j, j < cfg.nRows q →
          ∀ w, w < RL cfg →
          s'.bits (FRval cfg q + j * RL cfg + w) =
            reachWord cfg (cfg.period - 1 - q) j w (cfg.nRows 0)) := by
  intro k
  induction k with
  | zero =>
    intro _ hb1 hb2 s' hrun
    rw [reachPhases] at hrun
    have hss := Option.some_inj.mp hrun
    subst hss
    exact ⟨fun q hq1 hq2 => hb1 q (by omega) hq2, fun q hq1 hq2 => hb2 q (by omega) hq2⟩
  | succ k ih =>
    intro hk hb1 hb2 s' hrun
    rw [reachPhases] at hrun
    obtain ⟨s, hs, hbody⟩ := Option.bind_eq_some.mp hrun
    obtain ⟨ih1, ih2⟩ := ih (by omega) hb1 hb2 s hs
    by_cases hcap : NCOMPAT ≤ s.firstReach (cfg.period - 2 - k + 1) +
        cfg.nRows (cfg.period - 2 - k + 1) * RL cfg +
        cfg.nRows (cfg.period - 2 - k) * RL cfg
    · rw [if_pos hcap] at hbody
      exact absurd hbody (by simp)
    · rw [if_neg hcap] at hbody
      have hss := Option.some_inj.mp hbody
      subst hss
      have hp2 : k + 2 ≤ cfg.period := by omega
      have hFnew : s.firstReach (cfg.period - 2 - k + 1) =
          FRval cfg (cfg.period - 2 - k + 1) :=
        ih1 (cfg.period - 2 - k + 1) (by omega) (by omega)
      have hFstep : FRval cfg (cfg.period - 2 - k) =
          FRval cfg (cfg.period - 2 - k + 1) +
            cfg.nRows (cfg.period - 2 - k + 1) * RL cfg :=
        FRval_eq_step cfg (cfg.period - 2 - k) (by omega)
      have hUpp : upd s.firstReach (cfg.period - 2 - k)
          (s.firstReach (cfg.period - 2 - k + 1) +
            cfg.nRows (cfg.period - 2 - k + 1) * RL cfg) (cfg.period - 2 - k) =
          FRval cfg (cfg.period - 2 - k) := by
        rw [upd_same, hFnew, ← hFstep]
      have hUo : ∀ q, q ≠ cfg.period - 2 - k →
          upd s.firstReach (cfg.period - 2 - k)
            (s.firstReach (cfg.period - 2 - k + 1) +
              cfg.nRows (cfg.period - 2 - k + 1) * RL cfg) q = s.firstReach q :=
        fun q hq => upd_other _ _ hq
      have hUp1 : upd s.firstReach (cfg.period - 2 - k)
          (s.firstReach (cfg.period - 2 - k + 1) +
            cfg.nRows (cfg.period - 2 - k + 1) * RL cfg) (cfg.period - 2 - k + 1) =
          FRval cfg (cfg.period - 2 - k + 1) := by
        rw [hUo _ (by omega), hFnew]
      obtain ⟨sF, so, si⟩ := reachStep_i_spec' cfg (cfg.period - 2 - k)
        (upd s.firstReach (cfg.period - 2 - k)
          (s.firstReach (cfg.period - 2 - k + 1) +
            cfg.nRows (cfg.period - 2 - k + 1) * RL cfg)) s.bits
        (by
          intro i2 j2 k1 k2 hi2 hj2 hk1 hk2
          rw [hUpp, hUp1]
          have hb := mul_block_mono' (RL cfg) j2 (cfg.nRows (cfg.period - 2 - k + 1)) hj2
          omega)
        (cfg.nRows (cfg.period - 2 - k)) (le_refl _)
      constructor
      · intro q hq1 hq2
        rw [sF]
        by_cases hqp : q = cfg.period - 2 - k
        · rw [hqp, hUpp]
        · rw [hUo q hqp]
          exact ih1 q (by omega) hq2
      · intro q hq1 hq2 j hj w hw
        by_cases hqp : q = cfg.period - 2 - k
        · rw [hqp] at hj ⊢
          rw [← hUpp, si j hj w hw,
            show cfg.period - 1 - (cfg.period - 2 - k) = k + 1 from by omega]
          apply orSel_eq_reachWord cfg k j w _ _ hp2
          intro j' hj'
          rw [hUp1]
          have hr := ih2 (cfg.period - 2 - k + 1) (by omega) (by omega) j' hj' w hw
          rw [show cfg.period - 1 - (cfg.period - 2 - k + 1) = k from by omega] at hr
          exact hr
        · have hqgt : cfg.period - 2 - k < q := by omega
          have hble := FRval_block_le cfg q (cfg.period - 2 - k) hqgt hq2
          have hjb := mul_block_mono' (RL cfg) j (cfg.nRows q) hj
          rw [so _ (by
            intro i2 w' hi2 hw'
            rw [hUpp]
            omega)]
          exact ih2 q (by omega) hq2 j hj w hw

end OFind

/-- C3: after `testReachable()` runs to completion on a completed
compatibility matrix, `reachable(p, k, j)` is nonzero iff there is a
directed compatibility path from phase-`p` candidate `j` through phases
`p+1, ..., P-1` that wraps around to land on phase-0 candidate `k`
(for `p = P-1` this is one-step compatibility into phase 0). -/
theorem c3_testReachable_paths (cfg : OFind.ReachCfg) (st0 st' : OFind.ReachSt)
    (hper : 1 ≤ cfg.period)
    (hrun : OFind.testReachable cfg st0 = some st') :
    ∀ p, p < cfg.period → ∀ j, j < cfg.nRows p → ∀ k, k < cfg.nRows 0 →
      (OFind.reachable cfg st' p k j ≠ 0 ↔
        OFind.pathReachP cfg (cfg.period - 1 - p) j k) := by
  have hF0 : OFind.FRval cfg (cfg.period - 1) = 0 := by
    rw [OFind.FRval, show cfg.period - 1 - (cfg.period - 1) = 0 from by omega]
    rfl
  obtain ⟨h1, h2⟩ := OFind.reachPhases_spec cfg
    ⟨OFind.upd st0.firstReach (cfg.period - 1) 0,
      OFind.reachBase_i cfg st0.bits (cfg.nRows (cfg.period - 1))⟩
    (cfg.period - 1) (le_refl _)
    (by
      intro q hql hqu
      have hqe : q = cfg.period - 1 := by omega
      rw [hqe]
      show OFind.upd st0.firstReach (cfg.period - 1) 0 (cfg.period - 1) =
        OFind.FRval cfg (cfg.period - 1)
      rw [OFind.upd_same, hF0])
    (by
      intro q hql hqu j hj w hw
      have hqe : q = cfg.period - 1 := by omega
      rw [hqe] at hj ⊢
      show OFind.reachBase_i cfg st0.bits (cfg.nRows (cfg.period - 1))
          (OFind.FRval cfg (cfg.period - 1) + j * OFind.RL cfg + w) = _
      rw [hF0, Nat.zero_add, show cfg.period - 1 - (cfg.period - 1) = 0 from by omega]
      exact (OFind.reachBase_i_spec cfg st0.bits (cfg.nRows (cfg.period - 1))).2 j hj w hw)
    st' hrun
  intro p hp j hj k hk
  have hF : st'.firstReach p = OFind.FRval cfg p := h1 p (by omega) (by omega)
  have hB : st'.bits (OFind.FRval cfg p + j * OFind.RL cfg + (k >>> 5)) =
      OFind.reachWord cfg (cfg.period - 1 - p) j (k >>> 5) (cfg.nRows 0) :=
    h2 p (by omega) (by omega) j hj (k >>> 5) (OFind.shiftRight5_lt_words hk)
  rw [OFind.reachable, hF, hB, OFind.reachWord_read cfg _ j (cfg.nRows 0) k hk,
    OFind.pathReachAux_iff]

namespace OFind

/-- Concrete configuration for the C3 witness: period 2, one candidate
row per phase, all pairs compatible. -/
def c3cfgW : ReachCfg := ⟨2, fun _ => 1, fun _ => 0, fun _ _ _ => true⟩

/-- All-zero initial reachability storage for the C3 witness. -/
def c3st0W : ReachSt := ⟨fun _ => 0, fun _ => 0⟩

/-- The state `testReachable` produces on the C3 witness configuration:
base phase 1 at offset 0, then one induction step for phase 0. -/
def c3stW' : ReachSt :=
  reachStep_i c3cfgW 0
    ⟨upd (upd c3st0W.firstReach 1 0) 0
        (upd c3st0W.firstReach 1 0 1 + c3cfgW.nRows 1 * RL c3cfgW),
      reachBase_i c3cfgW c3st0W.bits (c3cfgW.nRows 1)⟩
    (c3cfgW.nRows 0)

end OFind

/-- C3 witness: the theorem applied to the concrete two-phase
configuration at `p = 0`, `j = 0`, `k = 0`. -/
theorem c3_testReachable_paths_witness :
    OFind.reachable OFind.c3cfgW OFind.c3stW' 0 0 0 ≠ 0 ↔
      OFind.pathReachP OFind.c3cfgW (OFind.c3cfgW.period - 1 - 0) 0 0 :=
  c3_testReachable_paths OFind.c3cfgW OFind.c3st0W OFind.c3stW' (by decide) rfl
    0 (by decide) 0 (by decide) 0 (by decide)

namespace OFind

/-! ## terminal / terminate and the initTermTabs tables
(src/ofind.c lines 427-474, 499-696, 698-807)

The tables `nti`, `nxTerm`, `revTerm`, `tcompat3`, `tcompat` and
`stabtab` are global arrays filled by `initTermTabs`; each is embedded as
the function computing the entry the loops store at a given index. -/

/-- The configuration and state slice read by `terminal` and `terminate`:
the command-line globals, the `initTermTabs` outputs `initialTermState`,
`addlStatorCols` and the packed `tcompat3`/`stabtab` arrays (`tc3`,
`stab`, one bit per array entry), and the rows of `s`, `parentState(s)`
and `parentState(parentState(s))`; `root` is `parentState(s) == s`. -/
structure TermCfg where
  rule : Nat
  symmetry : SymType
  period : Nat
  totalWidth : Nat
  initialTermState : Nat
  addlStatorCols : Nat
  tc3 : Nat
  stab : Nat
  rows : Nat → Nat
  prows : Nat → Nat
  pprows : Nat → Nat
  root : Bool

/-- Three-bit population count (the unshifted part of `count[]`,
src/ofind.c lines 705-710). -/
def pop3 (x : Nat) : Nat := (x &&& 1) + ((x >>> 1) &&& 1) + ((x >>> 2) &&& 1)

/-- `bitCount[x]` (initTermTabs, src/ofind.c lines 711-714). -/
def bitCount (x : Nat) : Nat := pop3 x + ((x >>> 3) &&& 1) + ((x >>> 4) &&& 1)

/-- `nti[(j<<6)|i]` (initTermTabs, src/ofind.c lines 770-790). -/
def nti (rule m : Nat) : Nat :=
  let i := m &&& 63
  let j := m >>> 6
  let succ := i &&& 1
  let count := ((i >>> 1) &&& 3) + ((i >>> 3) &&& 1) + ((i >>> 5) &&& 1) +
    (j &&& 1) + ((j >>> 1) &&& 1) + (9 - 9 * ((i >>> 4) &&& 1))
  let succ2 := j &&& 1
  let count2 := 9 - 9 * succ2 + ((j >>> 1) &&& 1) + ((j >>> 2) &&& 1) + ((j >>> 3) &&& 1) +
    ((i >>> 3) &&& 1) + ((i >>> 4) &&& 1) + ((i >>> 5) &&& 1)
  (List.range 2).foldl (fun acc inner =>
    if (if rule.testBit (count + inner) then succ = 1 else succ = 0) then
      (List.range 2).foldl (fun acc2 outer =>
        if (if rule.testBit (count2 + inner + outer) then succ2 = 1 else succ2 = 0) then
          acc2 ||| (1 <<< (((j &&& 5) <<< 1) ||| (outer <<< 2) ||| inner))
        else acc2) acc
    else acc) 0

/-- `nxTerm[idx]` (initTermTabs, src/ofind.c lines 792-796). -/
def nxTerm (rule idx : Nat) : Nat :=
  (List.range 16).foldl (fun acc j =>
    if idx.testBit j then acc ||| nti rule ((idx >>> 16) ||| (j <<< 6)) else acc) 0

/-- `revTerm[idx]` (initTermTabs, src/ofind.c lines 758-766). -/
def revTerm (idx : Nat) : Nat :=
  (List.range 16).foldl (fun acc j =>
    if idx.testBit j then acc ||| (1 <<< (((j &&& 5) <<< 1) ||| ((j &&& 10) >>> 1))) else acc) 0

/-- The `initialTermState` / `addlStatorCols` fixpoint loop for
`zeroLotLine == 0` (initTermTabs, src/ofind.c lines 798-807), with fuel;
`none` models the C loop never reaching a fixpoint. -/
def initTermFix (rule : Nat) : Nat → Nat → Nat → Option (Nat × Nat)
  | 0, _, _ => none
  | f + 1, its, addl =>
    let t := nxTerm rule its
    if t = its then some (its, addl) else initTermFix rule f t (addl + 1)

/-- One AND-accumulation of `NXTERM` over the phases (the inner loops of
`terminal`, via the macros at src/ofind.c lines 473-474), with row
transforms `rf`/`prf`/`srf` applied before the window at column `i`. -/
def termAnd (cfg : TermCfg) (term : Nat) (rf prf srf : Nat → Nat) (i : Nat) : Nat :=
  (List.range cfg.period).foldl (fun acc phase =>
    acc &&& nxTerm cfg.rule (term |||
      (((rf (cfg.rows phase) >>> i) &&& 7) <<< 19) |||
      (pop3 ((prf (cfg.prows phase) >>> i) &&& 7) <<< 17) |||
      (((srf (cfg.rows ((phase + 1) % cfg.period)) >>> (i + 1)) &&& 1) <<< 16))) 0xFFFF

/-- The main column scan of `terminal` (src/ofind.c lines 552-558):
iteration count `c` handles column `i = c - 1`; `none` is the early
`return 0` on an empty term set. -/
def termLoop (cfg : TermCfg) : Nat → Nat → Option Nat
  | 0, term => some term
  | c + 1, term =>
    if term = 0 then none
    else termLoop cfg c (termAnd cfg term id id id c)

/-- `ODDEXT` (src/ofind.c line 429). -/
def ODDEXT (r : Nat) : Nat := (r <<< 1) ||| ((r &&& 2) >>> 1)

/-- `EVEXT` (src/ofind.c line 430). -/
def EVEXT (r : Nat) : Nat := (r <<< 1) ||| (r &&& 1)

/-- `terminal(s)` (src/ofind.c lines 499-590): the returned flag plus the
`row_symmetry` value the call leaves behind. -/
def terminal (cfg : TermCfg) : Bool × SymType :=
  if cfg.root then (false, .sNone)
  else if (List.range cfg.period).all fun ph => cfg.rows ph == cfg.prows ph then
    (true, .sEven)
  else if (List.range cfg.period).all fun ph => cfg.rows ph == cfg.pprows ph then
    (true, .sOdd)
  else if cfg.period % 2 = 0 ∧ ((List.range cfg.period).all fun ph =>
      cfg.rows ph == cfg.prows ((ph + cfg.period / 2) % cfg.period)) then
    (true, .sEven)
  else if cfg.period % 2 = 0 ∧ ((List.range cfg.period).all fun ph =>
      cfg.rows ph == cfg.pprows ((ph + cfg.period / 2) % cfg.period)) then
    (true, .sOdd)
  else
    match termLoop cfg cfg.totalWidth cfg.initialTermState with
    | none => (false, .sNone)
    | some term =>
      match cfg.symmetry with
      | .sOdd =>
        let nt := termAnd cfg term ODDEXT ODDEXT (fun r => r <<< 1) 0
        (decide (revTerm nt &&& term ≠ 0), .sNone)
      | .sEven =>
        let nt := termAnd cfg term EVEXT EVEXT (fun r => r <<< 1) 0
        (decide (revTerm nt &&& nt ≠ 0), .sNone)
      | .sNone =>
        let t1 := termAnd cfg term (fun r => r <<< 1) (fun r => r <<< 1) (fun r => r <<< 1) 0
        let t2 := termAnd cfg t1 (fun r => r <<< 2) (fun r => r <<< 2) (fun r => r <<< 2) 0
        (decide (revTerm t2 &&& cfg.initialTermState ≠ 0), .sNone)

/-- `tcomp3(i,j,k)` (initTermTabs, src/ofind.c lines 716-729). -/
def tcomp3 (rule i j k : Nat) : Bool :=
  let i := i &&& 7
  let j := j &&& 7
  let k := k &&& 7
  let count := 9 - 9 * ((j >>> 1) &&& 1) + pop3 i + pop3 k + (j &&& 1) + ((j >>> 2) &&& 1)
  if rule.testBit count then j &&& 2 ≠ 0 else j &&& 2 = 0

/-- The `tcompat3` array (initTermTabs, src/ofind.c lines 716-729)
packed into one word, bit `(i<<6)|(j<<3)|k` holding `tcompat3[i][j][k]`. -/
def tcompat3Tab (rule : Nat) : Nat :=
  (List.range 512).foldl (fun acc m =>
    if tcomp3 rule ((m >>> 6) &&& 7) ((m >>> 3) &&& 7) (m &&& 7) then acc ||| (1 <<< m)
    else acc) 0

/-- `tcompatible(i,j,k)` (initTermTabs, src/ofind.c lines 732-740), read
from the packed `tcompat3` array `tc3`. -/
def tcompatible (tc3 i j k : Nat) : Bool :=
  tc3.testBit (((i &&& 7) <<< 6) ||| ((j &&& 7) <<< 3) ||| (k &&& 7)) &&
  tc3.testBit ((((i >>> 1) &&& 7) <<< 6) ||| (((j >>> 1) &&& 7) <<< 3) ||| ((k >>> 1) &&& 7)) &&
  tc3.testBit ((((i >>> 2) &&& 7) <<< 6) ||| (((j >>> 2) &&& 7) <<< 3) ||| ((k >>> 2) &&& 7)) &&
  tc3.testBit ((((i >>> 3) &&& 7) <<< 6) ||| (((j >>> 3) &&& 7) <<< 3) ||| ((k >>> 3) &&& 7)) &&
  tc3.testBit ((((i >>> 4) &&& 7) <<< 6) ||| (((j >>> 4) &&& 7) <<< 3) ||| ((k >>> 4) &&& 7))

/-- `stabtab[i]` (initTermTabs, src/ofind.c lines 742-756). -/
def stabtabEntry (rule i : Nat) : Bool :=
  let j := 9 - 9 * ((i >>> 5) &&& 1) + ((i >>> 11) &&& 1) + ((i >>> 9) &&& 1) +
    ((i >>> 7) &&& 1) + ((i >>> 6) &&& 1) + ((i >>> 4) &&& 1) +
    ((i >>> 3) &&& 1) + ((i >>> 2) &&& 1) + ((i >>> 1) &&& 1)
  (if rule.testBit j then i &&& 1 ≠ 0 else i &&& 1 = 0) &&
  (let j2 := 9 - 9 * ((i >>> 9) &&& 1) + ((i >>> 12) &&& 1) + ((i >>> 11) &&& 1) +
      ((i >>> 10) &&& 1) + ((i >>> 8) &&& 1) + ((i >>> 7) &&& 1) + ((i >>> 6) &&& 1) +
      ((i >>> 5) &&& 1) + ((i >>> 4) &&& 1)
    if rule.testBit j2 then (i >>> 9) &&& 1 ≠ 0 else (i >>> 9) &&& 1 = 0)

/-- The `stabtab` array packed into one word, bit `i` holding
`stabtab[i]`, built 32-bit word by 32-bit word. -/
def stabtabTab (rule : Nat) : Nat :=
  (List.range 256).foldl (fun acc hi =>
    acc ||| ((List.range 32).foldl (fun a lo =>
      if stabtabEntry rule (32 * hi + lo) then a ||| (1 <<< lo) else a) 0 <<< (32 * hi))) 0

/-- One phase of the `stabilizes` loop (src/ofind.c lines 631-655): the
window rows at column `col` (negative columns use the symmetry-extended
rows) indexed into the packed `stabtab` array. -/
def stabPhase (cfg : TermCfg) (ijk : Nat) (col : Int) (phase : Nat) : Bool :=
  let r0 := cfg.rows phase
  let pr0 := cfg.prows phase
  let sr0 := cfg.rows ((phase + 1) % cfg.period)
  let rps : Nat × Nat × Nat :=
    match col with
    | Int.ofNat c => (r0 >>> c, pr0 >>> c, sr0 >>> c)
    | Int.negSucc m =>
      match cfg.symmetry with
      | .sOdd => (ODDEXT r0, ODDEXT pr0, ODDEXT sr0)
      | .sEven => (EVEXT r0, EVEXT pr0, EVEXT sr0)
      | .sNone => (r0 <<< (m + 1), pr0 <<< (m + 1), sr0 <<< (m + 1))
  cfg.stab.testBit (ijk ||| ((rps.1 &&& 7) <<< 4) ||| ((rps.2.1 &&& 7) <<< 1) |||
    ((rps.2.2 >>> 1) &&& 1))

/-- The phase conjunction of `stabilizes` (src/ofind.c line 631). -/
def stabAll (cfg : TermCfg) (ijk : Nat) (col : Int) : Nat → Bool
  | 0 => true
  | p + 1 => stabAll cfg ijk col p && stabPhase cfg ijk col p

/-- `stabilizes(i,j,k,s,col)` (src/ofind.c lines 624-657). -/
def stabilizes (cfg : TermCfg) (i j k : Nat) (col : Int) : Bool :=
  stabAll cfg (((i &&& 3) <<< 11) ||| ((j &&& 3) <<< 9) ||| ((k &&& 3) <<< 7)) col
    cfg.period

/-- Read the `BT` entry `(i,j)` of a packed 1024-entry level word, 16
bits per entry: `0` encodes the `-1` initialization, `v + 1` a cell
count `v`. -/
def getBT (lvl i j : Nat) : Nat := (lvl >>> (16 * ((i <<< 5) ||| j))) &&& 0xFFFF

/-- Store `v` into entry `(j,k)` of a packed level holding `cur` there
(the `BT(col,j,k) = v` assignment at src/ofind.c line 683). -/
def setBT (lvl j k cur v : Nat) : Nat :=
  lvl - (cur <<< (16 * ((j <<< 5) ||| k))) + ((v + 1) <<< (16 * ((j <<< 5) ||| k)))

/-- The innermost `k` scan of the `terminate` update (src/ofind.c lines
676-684): countdown `c` handles `k = 32 - c`, with the predecessor
entry value `BT(col+1,i,j) = btv - 1` already read. -/
def btKLoop (cfg : TermCfg) (btv i j : Nat) (col : Int) : Nat → Nat → Nat
  | 0, acc => acc
  | c + 1, acc =>
    let k := 32 - (c + 1)
    btKLoop cfg btv i j col c
      (match tcompatible cfg.tc3 i j k with
       | false => acc
       | true =>
         let cur := getBT acc j k
         let v := btv - 1 + bitCount k
         match Nat.blt v (cond (Nat.beq cur 0) 0x7fff (cur - 1)) with
         | false => acc
         | true =>
           match stabilizes cfg i j k col with
           | false => acc
           | true => setBT acc j k cur v)

/-- One `(i,j)` iteration of the `terminate` update scan (src/ofind.c
line 675): skip the pair unless `BT(col+1,i,j)` is set. -/
def btStep (cfg : TermCfg) (prev : Nat) (col : Int) (ij acc : Nat) : Nat :=
  match getBT prev (ij >>> 5) (ij &&& 31) with
  | 0 => acc
  | b + 1 => btKLoop cfg (b + 1) (ij >>> 5) (ij &&& 31) col 32 acc

/-- The outer `(i,j)` scan over all 1024 pairs, countdown `c` handling
pair `1024 - c`; matching on the step result keeps the accumulator in
normal form. -/
def btILoop (cfg : TermCfg) (prev : Nat) (col : Int) : Nat → Nat → Nat
  | 0, acc => acc
  | c + 1, acc =>
    match btStep cfg prev col (1024 - (c + 1)) acc with
    | 0 => btILoop cfg prev col c 0
    | a + 1 => btILoop cfg prev col c (a + 1)

/-- One full `BT` level at column `col` built from the level above it
(the body of the column loop, src/ofind.c lines 673-684). -/
def mkLevel (cfg : TermCfg) (prev : Nat) (col : Int) : Nat :=
  btILoop cfg prev col 1024 0

/-- The descending column loop of `terminate` (src/ofind.c lines
671-686): `none` is the `!foundAny` early return; the returned list
holds the levels from `lastCol` (head) up to the start column. -/
def btBuild (cfg : TermCfg) : Nat → Int → Nat → List Nat → Option (List Nat)
  | 0, _, _, acc => some acc
  | n + 1, col, prev, acc =>
    let lvl := mkLevel cfg prev (col - 1)
    if lvl = 0 then none
    else btBuild cfg n (col - 1) lvl (lvl :: acc)

/-- `terminateCols(backCol,fwdCol)` (src/ofind.c lines 607-622) on the
two packed levels it indexes: its return value is `1` iff some column
pair is jointly realizable (the cost threshold `0x7fff` is never hit by
a valid pair). -/
def terminateCols (lvlBack lvlFwd : Nat) : Bool :=
  (List.range 32).any fun i => (List.range 32).any fun j =>
    getBT lvlBack i j != 0 && getBT lvlFwd j i != 0

/-- `terminate(s)` (src/ofind.c lines 659-696). -/
def terminate (cfg : TermCfg) : Bool :=
  let c0 := min (cfg.totalWidth + cfg.addlStatorCols) 63
  let lastCol : Int := if cfg.symmetry = .sNone then -2 else -1
  let steps := ((c0 : Int) - lastCol).toNat
  match btBuild cfg steps c0 1 [1] with
  | none => false
  | some lvls =>
    match cfg.symmetry with
    | .sEven => terminateCols (lvls.getD 0 0) (lvls.getD 0 0)
    | .sOdd => terminateCols (lvls.getD 0 0) (lvls.getD 1 0)
    | .sNone => terminateCols (lvls.getD (cfg.totalWidth + 2) 0) (lvls.getD 0 0)

/-- The early-return guard of `success` (src/ofind.c line 828), taking
the `row_symmetry` value left by the preceding `terminal` call. -/
def successEarlyReturn (cfg : TermCfg) : Bool :=
  ((terminal cfg).2 == SymType.sNone) && !(terminate cfg)

/-- The packed `tcompat3` array for the Conway rule `0o10014`. -/
def lifeTc3 : Nat := tcompat3Tab 0o10014

/-- The packed `stabtab` array for the Conway rule `0o10014`. -/
def lifeStab : Nat := stabtabTab 0o10014

/-- The C1 counterexample state: Conway rule, no left-right symmetry,
period 2, width 3; the candidate rows are `0` (phase 0) and `0o4`
(phase 1), the parent rows are `0o4` in both phases, the grandparent
rows are zero.  The pair passes the search's own admission tests: the
rows differ (aperiodic) and both cross-phase `testCompatible` extension
checks succeed. -/
def c1cfgW : TermCfg :=
  ⟨0o10014, .sNone, 2, 3, 65535, 3, lifeTc3, lifeStab,
    fun ph => if ph % 2 = 0 then 0 else 4,
    fun _ => 4, fun _ => 0, false⟩

/-- The packed `BT` level of `c1cfgW` at column 5, computed once and
reused so each level step is checked on its own. -/
def c1L5 : Nat := 55454070814057456124499870682736211586185990105053740148057182590936828751127132872553118964698847525421193377994746765903812231169

/-- The packed `BT` level of `c1cfgW` at column 4. -/
def c1L4 : Nat := 274073209522120563487366569743746051423911577329907327295655976667921398490197174387964670253578589994711806017959563974097769526157468525972346092957121886092525779323180803339406186878296417144012053757549502979409071291752022084339032950849419617349143480229798832934897512463607730345278178759275027771156737615221235976324814941594044357996553735403393818746430521445886422506753558812229290488432491715006636960701090166780707457407726232108523082333624294291606265156520387461220642708865734528890145426845585309548310215531416253563625822862296136100026192510865606058285919432352930773564888249199069218490576567433061449533542784493296128942706503997298359431477572922490400719476240370153053734222429189447997792639010264036337758049622358572064179775089110235790716473038017547449598473364703177673685651072842640606211787316102458402771613719330180964772840983268819600520500262680561216251269925721754446186705512653350645358531477631182296072816912456504296309287378432026620684928717032606043793619305953217778091369810112032072879477511544459258096473120360755785007651870554971214268552432586215984803937134703487606399878591161873398341339556809663746251684070130368700208133117649382095548491819413207316985052755592755059432526015124642457221139194400414833405228314916755428805283179532308512516562247282533013771566119631990458650772968964846169939860007706808582744144281479111517919779314698326324668724695204188726749728367998465683523752807147467838469170689357315747509269114707809571652056564595316679032658088211330170143621383958455954689381621798938923453943156654742367160911587517456581569837852464013357730859514158833740022987942017392517141248314402455900783445872067867844453813918321385259964078261292304214790796267200771127080630543866507324915071311373819086251236409144284661752095716384427664311419559860010601356439743774504968077892792959894743367338902171912033128223030137103788722461699984581326783322619708410717381836999230549280143047652593367674032010770532926336611176894483359395144355260936597783811349752725248766420989606365747757683254152287299475056988898617661402093463828214504518170794928055563171619780530653643638562358689083117801074236993210081245717578166254990685057526218426164327433501353420598436434957491310445679018573271471458531012619492443255202263908466909443287074132216764648764421316943869020463706850075328354724773265030779548898019029975742509037060119309177950341225153483342122660978995843607434923991609669866288500865928476408438016439758964239799737074668268324009337360746248964879259825016187853052002634157745725039245497796974512228048575510382564081539687135181889963656884231100858120204066537746525529007230090692726645427732820194110639747979492240150532580008451884010810095051590089870779146365545168417795748463559648266470144688020337243740092477490041585252418030878422167090159450717495919386815148799595959939691427668536192554536297336049659512675658466829309992457712756726579904510466877160692602151976333622736339436596423132975378615358780996862603129570971833180960217285249381915136093554401038031400883423254299795933490781626613432117536109765306073026525586993478652297419216827318547413021964790821754573462467256747189696961115075960032414485852148943387539422630645037656606714338009125674777380122505017172726393252297149490668660790465802380789461532328710762803990015691033626787729656600422839962512969460149937582912751013414448163948283559585197296600686112225136439937655216565686823309304884262213135173843857572290089717310486452080604603588634543039170895751865237532987661573485036112153607853118264976767419438589636080869266833927400111129884333166471038656825808845881719716223400048875152238063323833920779212052083966495587293093028085536506054048771115410139949042402335089046085521950796366597968352965410921907681401062956170568535377109738934178035109216841190261904796741640460331567902177460967617363519997309371019010324393734426494800049081082744942184099957687936846250463199793213499128082816745695692717810974862058656944570237884903236330243609941651602454810859783488977694933186584765406506923465262492644327990163723223426966480199273329672859673514906771505437711797439577747665179663858698350366608428925226144473307404476007187956092230565889

/-- The packed `BT` level of `c1cfgW` at column 3. -/
def c1L3 : Nat := 46326707856836019054587581481232559636581541478455299622234320776178769088970108898115048095379903674435918030279008324974765002616864158214408247080795637403983292158492409936352207004778898347296100193352843967877085029693722246654503056692439330499253625078210748684451035377631175782153355818043484394101084768235599289830168813128704712908050375103682130877985134853706536574089895308958730367112569527865996454584216877551649221272247547881604626766808794738825362789839343875660122270296947308506978894967008363112666534699499598556399189193408656965077529281335506917299188524349715021891274112844807751517817085234475610223597996617023603293896572591524433877311865010871946622376536289173075547934934751318799038219864717430614754559951361545639028803562313927040986316615349434755051755946013385127872570237396058951754849661484262450963895507089449001988132538886099493569480070245613986622868490055907690260983379905878432457661416329347275909155770289668141467870584196479262115071806238973481869949164236345616326890675202197092615212538345017225071996136531965812077935561284679582976698015550343389955372680064510040239050445953601729593121895136529208835791101250093378293492910627149423111562122932416163796929904175600600601850477359106026572351858161745220116175713149764921063943616511270670985433660770209791095210466696745739477793630724127369948808828854673427557110712334864316527335701837296048005482171651072638755896857662260649417039269649106489904749657341671710393343457241040043539695994538072332076652675781935589460630240726054609237027066186787263921016496550542411760365069884161684314090066277266252211620274335847357392350144785451546937185226215080035509907507977681486204843989018417002785125380061505722024708044618297323849297574720046041041489803480132776176018101727766811891559924148597991961107524692269326480375707250269761894135406172196710197055763593154273288258803829253226430047872232421955067661305201187919482085664481083920443874501070739027394279080016823860004973230460608435130222720748145720982025098155324843608847853957397277660151163106381193597575401166904238246514304788837710021491919697975270965418488727317046156907021883266676002096297078986276994084409604227458354343577295963850398883687318404380927856646725991923522953057466450126474180995649376449171393937211704744177493610729602303414224234478716071685893545464036040864872070624650465988789177668604944818143823742357215758332227653848716116120225136083170949482419149466014416620226412043675555012355050768344656379968123720973723545478857651646078922619614154959035891944673188513861550182424157653032535115424963557619806342681121295401367651993052867698902815880063323005215548736836575846240502877248080629700481089610150914694020021028137098281466233532698699944171080397589222684572088694771536557980113824836585334437149024792830068070562676126298553999977123962666631025591499391939318053093864309311174826746780249403194345498197159129771893211992192086871851226292548887029386241484452155317961030566757397572152178304950868243864180092400113572499227704779439394476308146309439384184104603633838031629433548515436954159278220707960157402024651102777345153543252833126678513514994124161374790256757367929418549376373783726440009794988316892836752632203017229636859805173953944799309205990343191151460136260513008580821943117057434052075492790314926039534032312154080399470796070873778009750862934864457585796645290721092669325555710967889637696301512360127532932299758473775906825994518966357004708555236513512733274895867974834756938682427367958511410307643350366012392956482928632509332834355502569288381246096799280956153380138452623804564800622466223790296709315706051246632009243596810952849642651846435003954707573930637129505980191567676823028805597625290577644560320414351426699162729399830835529799080201680646861093217759849774636721151420914452176093793499130824253685139338881262544385918597291636311777343651657477329718968027663460663165660777921493689033790419101322143226484135033408563365242345559344933587924657313315541383318510124101182017688078461650586376278067018170360880417852917764603677621639864790036430569461201887035497816908520593550132864075049140534753064410262984984196851905118567283299420534752785162727844976581091898233727487497153498159705462762647030937200778576101876086277657090793457395812207929620129362707190594587648876927345514555915802612316059868991463186043697420710967197942335726478404908746029225515381100469013815693151548639458457972003217594993796060132473628953516834454014626969591313855044945111443903331587878325190786661089281

/-- The packed `BT` level of `c1cfgW` at column 2. -/
def c1L2 : Nat := 34102539121319448307444260628177326842725889864660143012029302328598594171719231780210771214071333396428206873310933303676363884077983773751850621400050826422731257374223815198531106028430086407415453855474109798455933185724679252198265017660413071579550737094051687811039671200970053714255334069076288219361305707315202701600061514176556140463036621247758965293204284651865414938048829478247121502593843010833868897852665157360275258668060083272652383980152590566370103458766849681298732179213816800146330085978033078479828370167983425060045843755525129845945057941444037233343815698379208788252305063196985824331865073365414736341255741697796166251049833513232929886856374903182463252066306317485760248500392981523644843583289823507032777450624970045318448537187681371329960359242466824463988729170007098443542941703837095548793349962482646463322872847408891045171475690374053763595065897072465701218291926935272427903356782270438905650901810774542465046256676925170374108820876639088407319807750682293043065269882758699550539360108784181682842591024468086208504959746813517437605554015571098212195028321760208266599851821621372425037869712438490704323959800973231572374606855387440721667515379660746359155038680896969459134855945043247005727768062040436408647791562059142539628426550168026202437361454602774178403870449313201491188351432298066353577267111748456985555251120927076321792323369405067142627719010490769220269312759014566600576780436879256307214367027674505064126112685784026653354254113360988536330295731758061021184572205322494179085954272841704895163955492619392762522426376285326130326210593246969835949892824258111551296271582910944278278183212004438975698494276764808828894655849248695617395083735869730415558445316999918040221160048490160203649489339492946318758010524886526708124354261267529284140816797703847395672128880866599004156870320305451564041567553990283171239932765180097117380803663030793586897358863467422087496366210638431177973583711179897074646601186245986140844758729032439824535044691248772781374406447906258181326212813914238198276637113910782974668036805706188261888948052839819405494035405745450914685053366168265022032133986689547114827322144249228551955290914876387106785543579582018931121196861621958774231403537330331465495830196447267436352941432107927536512584420111871576123187918712385865782939512949948842442796634161521007575698356024710538337575452533647228036474468948355473344689106051223292341620136996201904905691760650684562669911239254205147013790936198005928970473238152782926879702991300588745750322432236631890323883643784988352714786981535682084624288852739878502234098788745308712721998255624047914976317255472604142831023635511415626585260335518003599268560270046553293224378129564606389637289066833180702626714705751127716975006501134235675835113216278640808638232746219658208807326650362106098860117187601923167934581731120285795656241438063878966171912287246305936856855425690744276615721455902211560061016789639384741794953443171409924828849802846432038324803570376717220442348306442692698559013205400273841813168520408447827075115234240082837147271293437741183576020878887725362361085228557000035165436083015489443798052150037775534203596387322197816008906189778613585542942612070085570224633527854207900869770575241506781895327107622484254561961108000109205172452794325210912007073400182041221361553647074496309576337177561594208512983142019540502738166859025295427952804247217629538494097984067923037521449047470692802296960824546965557672118913000917134214499473669324055554998832569318873152155297728455128458933330244244529178960074492682171610232162999849752765017815705227252371154780848382858314618305754082922274755653598548179975708877637322954845810009394564243058542202343223741382260732561114655240708079298582292995932019418672401418410054385949556861525328812419040658048225608897822269666541919737617200071271804157831063930451682759165115912477002914235303127299377119151304242370419697232093668374962531608876388993820933545059515056663459566371347412449173728822494414416867894721291420026257449402667830419850735309760292251933227603332655069663938064578572399004509469657870499740128034330722008489323248216434175999842601335016281465143913385834086443542095128055886737874887076308011071808808045776778683464250698674890061210775273097719617255407096107675881550288869954007973568125226558251610406913

set_option maxHeartbeats 80000000

/-- The first `terminate` level step on `c1cfgW` (start column 6). -/
theorem c1_level5 : mkLevel c1cfgW 1 5 = c1L5 := by decide

/-- The second `terminate` level step on `c1cfgW`. -/
theorem c1_level4 : mkLevel c1cfgW c1L5 4 = c1L4 := by decide

/-- The third `terminate` level step on `c1cfgW`. -/
theorem c1_level3 : mkLevel c1cfgW c1L4 3 = c1L3 := by decide

/-- The fourth `terminate` level step on `c1cfgW`. -/
theorem c1_level2 : mkLevel c1cfgW c1L3 2 = c1L2 := by decide

/-- The fifth `terminate` level step on `c1cfgW` produces the empty
level: no `BT` entry at column 1 is reachable. -/
theorem c1_level1 : mkLevel c1cfgW c1L2 1 = 0 := by decide

/-- The `terminate` column loop on `c1cfgW` hits the empty level at
column 1 and takes the `!foundAny` early return. -/
theorem c1_btBuild_none : btBuild c1cfgW 8 6 1 [1] = none := by
  rw [btBuild, show (6 : Int) - 1 = 5 from rfl, c1_level5]
  show (if c1L5 = 0 then none else btBuild c1cfgW 7 5 c1L5 (c1L5 :: [1])) = none
  rw [if_neg (show ¬ (c1L5 = 0) from by decide)]
  rw [btBuild, show (5 : Int) - 1 = 4 from rfl, c1_level4]
  show (if c1L4 = 0 then none else btBuild c1cfgW 6 4 c1L4 (c1L4 :: (c1L5 :: [1]))) = none
  rw [if_neg (show ¬ (c1L4 = 0) from by decide)]
  rw [btBuild, show (4 : Int) - 1 = 3 from rfl, c1_level3]
  show (if c1L3 = 0 then none
    else btBuild c1cfgW 5 3 c1L3 (c1L3 :: (c1L4 :: (c1L5 :: [1])))) = none
  rw [if_neg (show ¬ (c1L3 = 0) from by decide)]
  rw [btBuild, show (3 : Int) - 1 = 2 from rfl, c1_level2]
  show (if c1L2 = 0 then none
    else btBuild c1cfgW 4 2 c1L2 (c1L2 :: (c1L3 :: (c1L4 :: (c1L5 :: [1]))))) = none
  rw [if_neg (show ¬ (c1L2 = 0) from by decide)]
  rw [btBuild, show (2 : Int) - 1 = 1 from rfl, c1_level1]
  show (if (0 : Nat) = 0 then (none : Option (List Nat))
    else btBuild c1cfgW 3 1 0 (0 :: (c1L2 :: (c1L3 :: (c1L4 :: (c1L5 :: [1])))))) = none
  rw [if_pos rfl]

/-- `terminate` fails on the C1 counterexample state. -/
theorem c1_terminate_false : terminate c1cfgW = false := by
  unfold terminate
  simp only []
  rw [show min (c1cfgW.totalWidth + c1cfgW.addlStatorCols) 63 = 6 from by decide,
    show (if c1cfgW.symmetry = SymType.sNone then (-2 : Int) else -1) = -2 from by decide,
    show (((6 : Nat) : Int) - (-2 : Int)).toNat = 8 from rfl,
    show (((6 : Nat) : Int)) = (6 : Int) from rfl]
  rw [c1_btBuild_none]

end OFind

/-- C1 counterexample: on the Conway-rule period-2 width-3 state
`c1cfgW` — whose rows differ from the parent rows (so every
row-symmetry test fails) and which passes both cross-phase
`testCompatible` extension checks of the search — `terminal` succeeds
asymmetrically yet `terminate` finds no finite-cost all-stator closure.
The `initialTermState = 0xffff` and `addlStatorCols = 3` it uses are the
exact `initTermTabs` fixpoint outputs for this rule. -/
theorem c1_terminal_terminate_counterexample :
    OFind.initTermFix 0o10014 65536 1 0 = some (65535, 3) ∧
    OFind.extCheck 0o10014 OFind.SymType.sNone 3 4 4 0 = true ∧
    OFind.extCheck 0o10014 OFind.SymType.sNone 3 0 4 4 = true ∧
    OFind.terminal OFind.c1cfgW = (true, OFind.SymType.sNone) ∧
    OFind.terminate OFind.c1cfgW = false :=
  ⟨by decide, by decide, by decide, by decide, OFind.c1_terminate_false⟩

set_option maxHeartbeats 1000000

/-- C1 (amended): after `terminal` has succeeded, the early-return guard
of `success` is taken exactly when `terminal` succeeded asymmetrically
(`row_symmetry == none`) and `terminate` fails to find a finite-cost
all-stator closure; such incomplete successes exist and are filtered
out rather than output. -/
theorem c1_success_guard (cfg : OFind.TermCfg)
    (_h : (OFind.terminal cfg).1 = true) :
    OFind.successEarlyReturn cfg = true ↔
      ((OFind.terminal cfg).2 = OFind.SymType.sNone ∧
        OFind.terminate cfg = false) := by
  simp [OFind.successEarlyReturn]

/-- C1 witness: the guard characterization applied to the concrete
counterexample state, on which `terminal` returns true. -/
theorem c1_success_guard_witness :
    (OFind.terminal OFind.c1cfgW).1 = true ∧
      (OFind.successEarlyReturn OFind.c1cfgW = true ↔
        ((OFind.terminal OFind.c1cfgW).2 = OFind.SymType.sNone ∧
          OFind.terminate OFind.c1cfgW = false)) :=
  ⟨by decide, c1_success_guard OFind.c1cfgW (by decide)⟩

namespace OFind

/-! ## The breadth-first queue, makeNewState's parent link and compact()
(src/ofind.c lines 83-107, 130-139, 916-933, 1141-1147, 1176-1286,
1292-1301)

States are indexed by slot (the C offset divided by `period + 1`;
`nextState`/`previousState` step by one slot).  `par s` is the parent
word `statespace[s]`: `-1` is `unused`, otherwise the parent's slot.
`rows s` are the state's per-phase rows, moved together with the parent
word by compaction stage 2. -/

/-- The queue: parent words, rows, `firstUnprocessedState` and
`firstFreeState` in slots. -/
structure BfsQ where
  par : Nat → Int
  rows : Nat → Nat → Nat
  fu : Nat
  n : Nat

/-- Pointwise store for the parent-word array. -/
def updI (f : Nat → Int) (i : Nat) (v : Int) : Nat → Int :=
  fun j => if j = i then v else f j

/-- Pointwise store for the per-state row vectors. -/
def updR (f : Nat → Nat → Nat) (i : Nat) (v : Nat → Nat) : Nat → (Nat → Nat) :=
  fun j => if j = i then v else f j

/-- The effect of `deepen` (src/ofind.c lines 1141-1147) on the parent
words: every frontier state on which `depthFirst` fails (abstracted as
the predicate `mark`) is set to `unused`. -/
def deepenMark (mark : Nat → Bool) (q : BfsQ) : Nat → Int :=
  fun s => if q.fu ≤ s ∧ s < q.n ∧ mark s = true then -1 else q.par s

/-- The scan `while (parentState(y) == unused) y = previousState(y)`
opening compaction stage 1 (src/ofind.c line 1219); `none` is the
underflow below `firstState`. -/
def s1SkipUnused (par : Nat → Int) : Nat → Option Nat
  | 0 => if par 0 ≠ -1 then some 0 else none
  | y + 1 => if par (y + 1) ≠ -1 then some (y + 1) else s1SkipUnused par y

/-- The scan `while (parentState(y) == x || parentState(y) == unused)`
of stage 1 (src/ofind.c lines 1230-1231). -/
def s1SkipChild (par : Nat → Int) (x : Nat) : Nat → Option Nat
  | 0 => if par 0 ≠ (x : Int) ∧ par 0 ≠ -1 then some 0 else none
  | y + 1 => if par (y + 1) ≠ (x : Int) ∧ par (y + 1) ≠ -1 then some (y + 1)
      else s1SkipChild par x y

/-- The marking scan `while (parentState(y) != x)` of stage 1
(src/ofind.c lines 1222-1229), returning the updated parent words, the
stopping position and the mark counter; `none` covers both the
`"Unable to find parent of y!"` `failure()` and the underflow below
`firstState`. -/
def s1Mark (y : Nat) : (Nat → Int) → Nat → Nat → Option ((Nat → Int) × Nat × Nat)
  | par, 0, cnt => if par y = (0 : Int) then some (par, 0, cnt) else none
  | par, x + 1, cnt =>
    if par y = ((x + 1 : Nat) : Int) then some (par, x + 1, cnt)
    else if par (x + 1) = ((x + 1 : Nat) : Int) then none
    else s1Mark y (updI par (x + 1) (-1)) x (cnt + 1)

/-- The stage-1 `do ... while (parentState(x) != x)` loop (src/ofind.c
lines 1221-1233), with fuel (`x` strictly decreases, so `fu + 1`
suffices). -/
def s1Outer : Nat → (Nat → Int) → Nat → Nat → Nat → Option ((Nat → Int) × Nat)
  | 0, _, _, _, _ => none
  | f + 1, par, x, y, cnt =>
    match s1Mark y par x cnt with
    | none => none
    | some (par1, x1, cnt1) =>
      if par1 x1 = (x1 : Int) then some (par1, cnt1)
      else
        match s1SkipChild par1 x1 y with
        | none => none
        | some y1 =>
          match x1 with
          | 0 => none
          | x2 + 1 =>
            if par1 x2 = (x2 : Int) then some (par1, cnt1)
            else s1Outer f par1 x2 y1 cnt1

/-- The scan `while (parentState(x) != unused) x = nextState(x)`
opening stage 2 (src/ofind.c lines 1242-1243). -/
def findUnused (par : Nat → Int) : Nat → Nat → Option Nat
  | 0, _ => none
  | f + 1, x => if par x = -1 then some x else findUnused par f (x + 1)

/-- Stage 2 (src/ofind.c lines 1245-1258): move used nodes forward; the
result is the final parent words, rows, `firstFreeState` and
`firstUnprocessedState` (the last updated by the mutating comparison
`y == firstUnprocessedState`). -/
def s2Move : Nat → (Nat → Int) → (Nat → Nat → Nat) → Nat → Nat → Nat →
    ((Nat → Int) × (Nat → Nat → Nat) × Nat × Nat)
  | 0, par, rows, x, fuv, _ => (par, rows, x, fuv)
  | f + 1, par, rows, x, fuv, y =>
    let moved := decide (par y ≠ -1)
    let par' := if moved then updI par x (par y) else par
    let rows' := if moved then updR rows x (rows y) else rows
    let x' := if moved then x + 1 else x
    let fuv' := if y = fuv then x' else fuv
    s2Move f par' rows' x' fuv' (y + 1)

/-- Stage 3 (src/ofind.c lines 1260-1280): rebuild parent pointers from
the pattern of equal/unequal old parents, `y` holding the old parent of
the previous node. -/
def s3Fix : Nat → (Nat → Int) → Int → Nat → (Nat → Int)
  | 0, par, _, _ => par
  | f + 1, par, y, x =>
    if par x = y then s3Fix f (updI par x (par (x - 1))) y (x + 1)
    else s3Fix f (updI par x (par (x - 1) + 1)) (par x) (x + 1)

/-- `compact()` (src/ofind.c lines 1176-1286): deepen-marking, stage 1,
and — only when stage 1 marked at least one node (`if (counter)`,
line 1235) — stages 2 and 3.  `none` models `failure()` exits and the
out-of-bounds reads a malformed queue would cause. -/
def compactQ (mark : Nat → Bool) (q : BfsQ) : Option BfsQ :=
  if 1 ≤ q.fu ∧ q.fu ≤ q.n then
    let par0 := deepenMark mark q
    match s1SkipUnused par0 (q.n - 1) with
    | none => none
    | some y0 =>
      match s1Outer (q.fu + 1) par0 (q.fu - 1) y0 0 with
      | none => none
      | some (par1, cnt) =>
        if cnt = 0 then some ⟨par1, q.rows, q.fu, q.n⟩
        else
          match findUnused par1 (q.n + 1) 0 with
          | none => none
          | some x0 =>
            match s2Move (q.n - x0) par1 q.rows x0 q.fu x0 with
            | (par2, rows2, nn, fu2) => some ⟨s3Fix (nn - 1) par2 0 1, rows2, fu2, nn⟩
  else none

/-- The claimed queue invariant: every live state is the root (slot 0,
its own parent) or has a live parent at a strictly smaller offset. -/
def parentInvariant (q : BfsQ) : Prop :=
  ∀ s, s < q.n → q.par s ≠ -1 →
    (q.par s = (s : Int) ∧ s = 0) ∨
    (0 ≤ q.par s ∧ q.par s < (s : Int) ∧ q.par (q.par s).toNat ≠ -1)

instance (q : BfsQ) : Decidable (parentInvariant q) := by
  unfold parentInvariant
  infer_instance

/-- One breadth-first iteration in which the dequeued state enqueues one
child (src/ofind.c lines 1294-1300 with `makeNewState`, lines 916-933):
the child's parent word is the dequeued slot `q.fu`. -/
def dequeueEnqueue (q : BfsQ) (childRows : Nat → Nat) : BfsQ :=
  ⟨updI q.par q.n (q.fu : Int), updR q.rows q.n childRows, q.fu + 1, q.n + 1⟩

/-- A five-state queue: the processed root 0 with children 1 (processed,
with children 3 and 4) and 2 (an unprocessed leaf); `depthFirst` fails
on the childless frontier state 2, so `deepen` marks it unused. -/
def c7q0 : BfsQ :=
  ⟨fun s => if s ≤ 2 then 0 else if s ≤ 4 then 1 else 0, fun _ _ => 0, 2, 5⟩

def c7mark : Nat → Bool := fun s => s == 2

/-- What `compact` leaves behind on `c7q0`: stage 1 marks nothing
(`counter == 0`, every processed state is an ancestor of the surviving
frontier), so stages 2 and 3 are skipped and the deepen-killed slot 2
stays in the queue. -/
def c7q1 : BfsQ := ⟨deepenMark c7mark c7q0, c7q0.rows, c7q0.fu, c7q0.n⟩

end OFind

/-- C7: the claimed parent-offset invariant is not maintained.  On the
queue `c7q0` (which satisfies the invariant) a completed `compact()` run
whose deepening kills the frontier state 2 marks nothing in stage 1
(`counter == 0`), so the compaction stages are skipped and the dead
slot 2 survives at `firstUnprocessedState`; `breadthFirst` then
processes that slot without checking for `unused`, and the child it
enqueues through `makeNewState` is a live state whose parent word names
the dead slot — the invariant fails. -/
theorem c7_queue_parent_invariant_bug :
    OFind.parentInvariant OFind.c7q0 ∧
    OFind.compactQ OFind.c7mark OFind.c7q0 = some OFind.c7q1 ∧
    OFind.c7q1.fu = 2 ∧ OFind.c7q1.par 2 = -1 ∧
    OFind.parentInvariant OFind.c7q1 ∧
    ¬ OFind.parentInvariant (OFind.dequeueEnqueue OFind.c7q1 (fun _ => 0)) :=
  ⟨by decide, rfl, rfl, by decide, by decide, by decide⟩
